import Mathlib

/-!
# amoxiflash: transport session, NAND operation engine, block reconciliation

A shallow embedding of `amoxiflash.c` (the Infectus NAND programmer utility).

Conventions of the embedding.

* Bytes are natural numbers; a C buffer is the list of its bytes. Local
  buffers, indeterminate in C until written, start as zeros.
* `int` values that can be negative (transfer results, `memcmp`) are `Int`;
  `unsigned int` arithmetic is taken modulo `2^32`; a value stored into a
  `u8` through `& 0xff` is taken modulo `256`.
* The USB adapter and the ECC codec are external: they are the fields of
  `Env`. The adapter is a function of the bus history, so the history is the
  device state and every deterministic device is covered.
* `World` is the mutable state: the bus history, the counter `blocks_done`,
  and a ghost log `calls` of the operations entered (never read by the code).
* Loops without a bound in the C code (`goto start`, `wait_flash`) take a
  step budget `fuel`; running out of budget is `none`.
* Diagnostic output (`printf`, `putchar`, the progress estimate, `hexdump`)
  is not part of the model, the two ECC warnings of `flash_compare` apart.
-/

namespace Amoxiflash

/-! ## Constants -/

def INFECTUS_NAND_CMD : Nat := 0x4e
def INFECTUS_NAND_SEND : Nat := 0x1
def INFECTUS_NAND_RECV : Nat := 0x2

def NAND_RESET : Nat := 0xff
def NAND_CHIPID : Nat := 0x90
def NAND_GETSTATUS : Nat := 0x70
def NAND_ERASE_PRE : Nat := 0x60
def NAND_ERASE_POST : Nat := 0xd0
def NAND_READ_PRE : Nat := 0x00
def NAND_READ_POST : Nat := 0x30
def NAND_WRITE_PRE : Nat := 0x80
def NAND_WRITE_POST : Nat := 0x10

def PAGEBUF_SIZE : Nat := 4096

/-! ## State -/

/-- One bulk transfer on the bus: `usb_bulk_write` of a frame with its return
value, or `usb_bulk_read` with the requested maximum, its return value and the
bytes the device delivered. -/
inductive UsbEvent
  | write (frame : List Nat) (ret : Int)
  | read (maxsize : Nat) (ret : Int) (data : List Nat)
deriving DecidableEq

/-- Return value of the transfer. -/
def UsbEvent.ret : UsbEvent → Int
  | .write _ r => r
  | .read _ r _ => r

/-- Ghost log entry: an operation of the program that was entered. -/
inductive Call
  | sendcommand (frame : List Nat)
  | eraseblock (blockno : Nat)
  | writeflashpage (pageno : Nat) (page : List Nat)
  | compare (pageno : Nat)
  | ecc_warning (on_disk : Bool) (pageno : Nat)
deriving DecidableEq

/-- The external collaborators: the two libusb bulk primitives on the open
device handle (functions of the bus history so far) and the ECC classifier,
reduced to the test `check_ecc(buf) == ECC_WRONG`. -/
structure Env where
  usb_bulk_write : List UsbEvent → List Nat → Int
  usb_bulk_read : List UsbEvent → Nat → Int × List Nat
  check_ecc_wrong : List Nat → Bool

/-- Mutable program state. -/
structure World where
  usb : List UsbEvent
  calls : List Call
  blocks_done : Nat
deriving DecidableEq

/-- The global configuration variables of the program. -/
structure Config where
  run_fast : Bool
  subpage_size : Nat
  page_size : Nat
  spare_size : Nat
  num_blocks : Nat
  pages_per_block : Nat
  verify_after_write : Bool
  chip_select : Nat
  force : Bool
  debug_mode : Bool
  test_mode : Bool
  check_status : Bool
  start_block : Nat
  quick_check : Bool
deriving DecidableEq

/-- The initial values of the globals. -/
def Config.initial : Config :=
  { run_fast := false, subpage_size := 0x2c0, page_size := 2048, spare_size := 64,
    num_blocks := 4096, pages_per_block := 64, verify_after_write := true,
    chip_select := 0, force := false, debug_mode := false, test_mode := false,
    check_status := false, start_block := 0, quick_check := false }

def World.log (w : World) (c : Call) : World :=
  { w with calls := w.calls ++ [c] }

def World.bus (w : World) (e : UsbEvent) : World :=
  { w with usb := w.usb ++ [e] }

/-! ## Buffers -/

/-- A zero-filled buffer of `n` bytes. -/
def zeros (n : Nat) : List Nat := List.replicate n 0

/-- Store `src` at the start of `dst` (`memcpy(dst, src, src.length)`). -/
def overwrite (dst src : List Nat) : List Nat :=
  src ++ dst.drop src.length

/-- Store `src` at offset `off` of `dst` (`memcpy(dst + off, src, src.length)`). -/
def write_at (dst : List Nat) (off : Nat) (src : List Nat) : List Nat :=
  dst.take off ++ src ++ dst.drop (off + src.length)

/-! ## Transport session -/

/-- The loop of `infectus_sendcommand` from the label `start`: the state is the
variable `ret` and the buffer. One budget unit is spent per bulk transfer. -/
def sendcommand_loop (env : Env) :
    Nat → Int → List Nat → Nat → Nat → World → Option (Int × List Nat × World)
  | 0, _, _, _, _, _ => none
  | fuel + 1, ret, buf, len, maxsize, w =>
    if ret < (len : Int) then
      let r := env.usb_bulk_write w.usb (buf.take len)
      let w1 := w.bus (UsbEvent.write (buf.take len) r)
      if r < 0 then some (r, buf, w1)
      else sendcommand_loop env fuel r buf len maxsize w1
    else
      let rd := env.usb_bulk_read w.usb maxsize
      let w1 := w.bus (UsbEvent.read maxsize rd.1 rd.2)
      if rd.1 < 0 then some (rd.1, buf, w1)
      else
        let buf1 := overwrite buf (rd.2.take rd.1.toNat)
        if buf1.getD 0 0 ≠ 0xFF then sendcommand_loop env fuel rd.1 buf1 len maxsize w1
        else some (rd.1, buf1, w1)

/-- `infectus_sendcommand(buf, len, maxsize)`: returns the value of `ret` and
the caller's buffer as the transfers left it. -/
def infectus_sendcommand (env : Env) (fuel : Nat) (buf : List Nat) (len maxsize : Nat)
    (w : World) : Option (Int × List Nat × World) :=
  sendcommand_loop env fuel 0 buf len maxsize (w.log (Call.sendcommand (buf.take len)))

/-! ## Command codec -/

/-- `infectus_nand_command(command, len, ...)`: the variadic arguments are the
list `args`; `len + 1` of them are consumed. Returns the buffer and `len + 9`. -/
def infectus_nand_command (command : List Nat) (len : Nat) (args : List Nat) :
    List Nat × Nat :=
  let c0 := overwrite command (zeros (len + 9))
  let c1 := c0.set 0 INFECTUS_NAND_CMD
  let c2 := c1.set 7 (len % 256)
  let c3 := (List.range (len + 1)).foldl (fun c i => c.set (i + 8) (args.getD i 0 % 256)) c2
  (c3, len + 9)

/-- `infectus_nand_receive(buf, len)`. -/
def infectus_nand_receive (env : Env) (fuel : Nat) (buf : List Nat) (len : Nat)
    (w : World) : Option (Int × List Nat × World) :=
  let b0 := overwrite buf (zeros 8)
  let b1 := b0.set 0 INFECTUS_NAND_CMD
  let b2 := b1.set 1 INFECTUS_NAND_RECV
  let b3 := b2.set 6 ((len >>> 8) % 256)
  let b4 := b3.set 7 (len % 256)
  infectus_sendcommand env fuel b4 8 (len + 3) w

/-- `infectus_nand_send(buf, len)`: `buf` is the caller's memory from the
pointer on. The 8-byte `memcpy` from the 7-byte literal reads one byte past
it; that byte lands in `temp_buf[7]`, which is assigned right after. A negative
`memcpy` size (only for `len = 0`) copies nothing here. -/
def infectus_nand_send (env : Env) (fuel : Nat) (buf : List Nat) (len : Nat)
    (w : World) : Option (Int × List Nat × World) :=
  let t0 := zeros PAGEBUF_SIZE
  let t1 := overwrite t0 [0x4e, 0x01, 0x00, 0x00, 0x00, 0x00, 0x00, 0x00]
  let t2 := t1.set 6 ((len / 256) % 256)
  let t3 := t2.set 7 (len % 256)
  let t4 := write_at t3 8 (buf.take len)
  match infectus_sendcommand env fuel t4 (len + 8) PAGEBUF_SIZE w with
  | none => none
  | some (retval, temp_buf, w1) =>
    if retval < 0 then some (retval, buf, w1)
    else
      let retval1 : Int := if retval > (len : Int) then (len : Int) - 1 else retval
      some (retval1, overwrite buf (temp_buf.take retval1.toNat), w1)

/-! ## NAND operation engine -/

/-- `infectus_getstatus()`. -/
def infectus_getstatus (env : Env) (fuel : Nat) (w : World) : Option (Nat × World) :=
  let buf := zeros 128
  let c := infectus_nand_command buf 0 [NAND_GETSTATUS]
  match infectus_sendcommand env fuel c.1 c.2 128 w with
  | none => none
  | some (_, buf1, w1) =>
    match infectus_nand_receive env fuel buf1 1 w1 with
    | none => none
    | some (_, buf2, w2) => some (buf2.getD 1 0, w2)

/-- `wait_flash()`: `status` starts at 0, so the body runs at least once; the
first argument bounds the number of polls. -/
def wait_flash (env : Env) (fuel : Nat) : Nat → World → Option World
  | 0, _ => none
  | n + 1, w =>
    match infectus_getstatus env fuel w with
    | none => none
    | some (status, w1) => if status ≠ 0xe0 then wait_flash env fuel n w1 else some w1

/-- `infectus_getflashid()`. -/
def infectus_getflashid (env : Env) (fuel : Nat) (w : World) : Option (Nat × World) :=
  let buf := zeros 128
  let c := infectus_nand_command buf 0 [NAND_RESET]
  match infectus_sendcommand env fuel c.1 c.2 128 w with
  | none => none
  | some (_, buf1, w1) =>
    let c1 := infectus_nand_command buf1 1 [NAND_CHIPID, 0]
    match infectus_sendcommand env fuel c1.1 c1.2 128 w1 with
    | none => none
    | some (_, buf2, w2) =>
      match infectus_nand_receive env fuel buf2 2 w2 with
      | none => none
      | some (_, buf3, w3) => some ((buf3.getD 1 0 <<< 8) ||| buf3.getD 2 0, w3)

/-- `infectus_eraseblock(blockno)`. -/
def infectus_eraseblock (env : Env) (fuel : Nat) (cfg : Config) (blockno : Nat)
    (w : World) : Option (Int × World) :=
  let w0 := w.log (Call.eraseblock blockno)
  let buf := zeros 128
  let pageno := (blockno * cfg.pages_per_block) % 2 ^ 32
  if cfg.test_mode then some (0, w0)
  else
    let c := infectus_nand_command buf 3 [NAND_ERASE_PRE, pageno, pageno >>> 8, pageno >>> 16]
    match infectus_sendcommand env fuel c.1 c.2 128 w0 with
    | none => none
    | some (_, buf1, w1) =>
      let c1 := infectus_nand_command buf1 0 [NAND_ERASE_POST]
      match infectus_sendcommand env fuel c1.1 c1.2 128 w1 with
      | none => none
      | some (ret, _, w2) =>
        match (if cfg.check_status then wait_flash env fuel fuel w2 else some w2) with
        | none => none
        | some w3 => some (ret, w3)

/-- The loop bound `ceil((float)(page_size + spare_size) / subpage_size)`,
taken as the exact rounded-up quotient. For `subpage_size = 0` the quotient is
infinite and the loop has no bound (`none`), unless the page is empty too (the
quotient is then not a number and the loop condition is false at once). -/
def page_chunks (cfg : Config) : Option Nat :=
  if cfg.subpage_size = 0 then
    (if cfg.page_size + cfg.spare_size = 0 then some 0 else none)
  else some ((cfg.page_size + cfg.spare_size + cfg.subpage_size - 1) / cfg.subpage_size)

/-- The `for` loop of `infectus_readflashpage` over the chunk indices. -/
def readflashpage_chunks (env : Env) (fuel : Nat) (cfg : Config) :
    List Nat → List Nat → List Nat → Int → World → Option (Int × List Nat × World)
  | [], _, dstbuf, len, w => some (len, dstbuf, w)
  | subpage :: rest, flash_buf, dstbuf, len, w =>
    match infectus_nand_receive env fuel flash_buf cfg.subpage_size w with
    | none => none
    | some (ret, flash_buf1, w1) =>
      let dstbuf1 := write_at dstbuf (subpage * cfg.subpage_size)
        ((flash_buf1.drop 1).take cfg.subpage_size)
      readflashpage_chunks env fuel cfg rest flash_buf1 dstbuf1 (len + (ret - 1)) w1

/-- `infectus_readflashpage(dstbuf, pageno)`: returns `len` and the
destination buffer. -/
def infectus_readflashpage (env : Env) (fuel : Nat) (cfg : Config) (dstbuf : List Nat)
    (pageno : Nat) (w : World) : Option (Int × List Nat × World) :=
  let buf := zeros 128
  let flash_buf := zeros PAGEBUF_SIZE
  let c := infectus_nand_command buf 5
    [NAND_READ_PRE, 0, 0, pageno, pageno >>> 8, pageno >>> 16]
  match infectus_sendcommand env fuel c.1 c.2 128 w with
  | none => none
  | some (_, buf1, w1) =>
    let c1 := infectus_nand_command buf1 0 [NAND_READ_POST]
    match infectus_sendcommand env fuel c1.1 c1.2 128 w1 with
    | none => none
    | some (_, _, w2) =>
      match page_chunks cfg with
      | none => none
      | some chunks =>
        readflashpage_chunks env fuel cfg (List.range chunks) flash_buf dstbuf 0 w2

/-- `file_readflashpage(fp, dstbuf, pageno)`: the file is the list of its
bytes; returns the number of bytes read and the buffer. -/
def file_readflashpage (cfg : Config) (fp : List Nat) (dstbuf : List Nat) (pageno : Nat) :
    Nat × List Nat :=
  let off := (pageno * (cfg.page_size + cfg.spare_size)) % 2 ^ 32
  let data := (fp.drop off).take (cfg.page_size + cfg.spare_size)
  (data.length, overwrite dstbuf data)

/-- `file_writeflashpage(fp, dstbuf, pageno)`: returns the number of bytes
written and the file; seeking past the end fills the gap with zeros. -/
def file_writeflashpage (cfg : Config) (fp : List Nat) (dstbuf : List Nat) (pageno : Nat) :
    Nat × List Nat :=
  let off := (pageno * (cfg.page_size + cfg.spare_size)) % 2 ^ 32
  let padded := fp ++ zeros (off - fp.length)
  (cfg.page_size + cfg.spare_size,
    write_at padded off (dstbuf.take (cfg.page_size + cfg.spare_size)))

/-- `memcmp(buf1, buf2, n)`: the difference of the first bytes that differ. -/
def memcmp (buf1 buf2 : List Nat) : Nat → Int
  | 0 => 0
  | n + 1 =>
    if buf1.getD 0 0 ≠ buf2.getD 0 0 then (buf1.getD 0 0 : Int) - (buf2.getD 0 0 : Int)
    else memcmp buf1.tail buf2.tail n

/-! ## Block reconciliation engine -/

/-- `flash_compare(fp, pageno)`: the result of `memcmp`. The outcome of
`check_ecc` only selects whether a warning is printed (logged here). -/
def flash_compare (env : Env) (fuel : Nat) (cfg : Config) (fp : List Nat) (pageno : Nat)
    (w : World) : Option (Int × World) :=
  let w0 := w.log (Call.compare pageno)
  let buf1 := (file_readflashpage cfg fp (zeros PAGEBUF_SIZE) pageno).2
  let w1 := if env.check_ecc_wrong buf1 then w0.log (Call.ecc_warning true pageno) else w0
  match infectus_readflashpage env fuel cfg (zeros PAGEBUF_SIZE) pageno w1 with
  | none => none
  | some (_, buf2, w2) =>
    let w3 := if env.check_ecc_wrong buf2 then w2.log (Call.ecc_warning false pageno) else w2
    some (memcmp buf1 buf2 (cfg.page_size + cfg.spare_size), w3)

/-- The `unsigned int` at index `i` of the buffer read as an array of 32-bit
words (least significant byte first). -/
def word32 (buf : List Nat) (i : Nat) : Nat :=
  buf.getD (4 * i) 0 + 256 * buf.getD (4 * i + 1) 0 + 65536 * buf.getD (4 * i + 2) 0
    + 16777216 * buf.getD (4 * i + 3) 0

/-- The `for` loop of `flash_isFF` over the word indices. -/
def flash_isFF_loop (buf : List Nat) : List Nat → Nat
  | [] => 1
  | i :: rest => if word32 buf i ≠ 0xFFFFFFFF then 0 else flash_isFF_loop buf rest

/-- `flash_isFF(buf, len)`: `len /= 4` rounds toward zero. -/
def flash_isFF (buf : List Nat) (len : Int) : Nat :=
  flash_isFF_loop buf (List.range (Int.tdiv len 4).toNat)

/-- The `for` loop of `infectus_writeflashpage` over the chunk indices; `buf`
is the 128-byte command buffer, `dstbuf` the caller's page buffer. -/
def writeflashpage_chunks (env : Env) (fuel : Nat) (cfg : Config) (pageno : Nat) :
    List Nat → List Nat → List Nat → World → Option (List Nat × World)
  | [], _, dstbuf, w => some (dstbuf, w)
  | subpage :: rest, buf, dstbuf, w =>
    let off := subpage * cfg.subpage_size
    let c := infectus_nand_command buf 5
      [NAND_WRITE_PRE, off, off >>> 8, pageno, pageno >>> 8, pageno >>> 16]
    match infectus_sendcommand env fuel c.1 c.2 128 w with
    | none => none
    | some (_, buf1, w1) =>
      match infectus_nand_send env fuel (dstbuf.drop off) cfg.subpage_size w1 with
      | none => none
      | some (_, tail1, w2) =>
        let dstbuf1 := dstbuf.take off ++ tail1
        let c1 := infectus_nand_command buf1 0 [NAND_WRITE_POST]
        match infectus_sendcommand env fuel c1.1 c1.2 128 w2 with
        | none => none
        | some (_, buf2, w3) =>
          match (if cfg.check_status then wait_flash env fuel fuel w3 else some w3) with
          | none => none
          | some w4 => writeflashpage_chunks env fuel cfg pageno rest buf2 dstbuf1 w4

/-- `infectus_writeflashpage(dstbuf, pageno)`: returns 0 and the page buffer. -/
def infectus_writeflashpage (env : Env) (fuel : Nat) (cfg : Config) (dstbuf : List Nat)
    (pageno : Nat) (w : World) : Option (Int × List Nat × World) :=
  let w0 := w.log (Call.writeflashpage pageno (dstbuf.take (cfg.page_size + cfg.spare_size)))
  if cfg.test_mode then some (0, dstbuf, w0)
  else
    match page_chunks cfg with
    | none => none
    | some chunks =>
      match writeflashpage_chunks env fuel cfg pageno (List.range chunks) (zeros 128) dstbuf w0 with
      | none => none
      | some (dstbuf1, w1) => some (0, dstbuf1, w1)

/-- The values of the loop variable of `for (i = start; i < bound; i += step)`. -/
def for_indices (start step bound : Nat) : List Nat :=
  (List.range bound).filter (fun i => decide (start ≤ i ∧ (i - start) % step = 0))

/-- The scan loop of `flash_program_block` over the page indices: returns
`miscompares`. -/
def program_scan (env : Env) (fuel : Nat) (cfg : Config) (fp : List Nat) (blockno : Nat) :
    List Nat → World → Option (Nat × World)
  | [], w => some (0, w)
  | pageno :: rest, w =>
    let p := (blockno * cfg.pages_per_block + pageno) % 2 ^ 32
    match flash_compare env fuel cfg fp p w with
    | none => none
    | some (x, w1) =>
      if x ≠ 0 then some (1, w1)
      else program_scan env fuel cfg fp blockno rest w1

/-- The programming loop of `flash_program_block` over the page indices. -/
def program_pages (env : Env) (fuel : Nat) (cfg : Config) (fp : List Nat) (blockno : Nat) :
    List Nat → List Nat → World → Option (List Nat × World)
  | [], buf, w => some (buf, w)
  | pageno :: rest, buf, w =>
    let p := (blockno * cfg.pages_per_block + pageno) % 2 ^ 32
    let rd := file_readflashpage cfg fp buf p
    if rd.1 = cfg.page_size + cfg.spare_size then
      if flash_isFF rd.2 ((cfg.page_size + cfg.spare_size : Nat) : Int) ≠ 0 then
        program_pages env fuel cfg fp blockno rest rd.2 w
      else
        match infectus_writeflashpage env fuel cfg rd.2 p w with
        | none => none
        | some (_, buf1, w1) =>
          if cfg.verify_after_write then
            match flash_compare env fuel cfg fp p w1 with
            | none => none
            | some (_, w2) => program_pages env fuel cfg fp blockno rest buf1 w2
          else program_pages env fuel cfg fp blockno rest buf1 w1
    else program_pages env fuel cfg fp blockno rest rd.2 w

/-- `flash_program_block(fp, blockno)`: returns 0. -/
def flash_program_block (env : Env) (fuel : Nat) (cfg : Config) (fp : List Nat)
    (blockno : Nat) (w : World) : Option (Int × World) :=
  let pages := for_indices (if cfg.run_fast then 2 else 0) (if cfg.run_fast then 4 else 1)
    cfg.pages_per_block
  match program_scan env fuel cfg fp blockno pages w with
  | none => none
  | some (miscompares, w1) =>
    let after : Option World :=
      if miscompares > 0 then
        match infectus_eraseblock env fuel cfg blockno w1 with
        | none => none
        | some (_, w2) =>
          match program_pages env fuel cfg fp blockno (for_indices 0 1 cfg.pages_per_block)
            (zeros PAGEBUF_SIZE) w2 with
          | none => none
          | some (_, w3) => some w3
      else some w1
    match after with
    | none => none
    | some w4 => some (0, { w4 with blocks_done := (w4.blocks_done + 1) % 2 ^ 32 })

/-- The `for` loop of `flash_dump_block` over the page indices; `fp` is the
output file. -/
def dump_pages (env : Env) (fuel : Nat) (cfg : Config) (blockno : Nat) :
    List Nat → List Nat → List Nat → World → Option (List Nat × World)
  | [], _, fp, w => some (fp, w)
  | pageno :: rest, buf, fp, w =>
    let p := (blockno * cfg.pages_per_block + pageno) % 2 ^ 32
    match infectus_readflashpage env fuel cfg buf p w with
    | none => none
    | some (ret, buf1, w1) =>
      if ret = ((cfg.page_size + cfg.spare_size : Nat) : Int) then
        dump_pages env fuel cfg blockno rest buf1 (file_writeflashpage cfg fp buf1 p).2 w1
      else dump_pages env fuel cfg blockno rest buf1 fp w1

/-- `flash_dump_block(fp, blockno)`: returns 0 and the output file. -/
def flash_dump_block (env : Env) (fuel : Nat) (cfg : Config) (fp : List Nat)
    (blockno : Nat) (w : World) : Option (Int × List Nat × World) :=
  match dump_pages env fuel cfg blockno (for_indices 0 1 cfg.pages_per_block)
      (zeros PAGEBUF_SIZE) fp w with
  | none => none
  | some (fp1, w1) => some (0, fp1, { w1 with blocks_done := (w1.blocks_done + 1) % 2 ^ 32 })

/-! ## The command dispatch of `main` -/

/-- How the run ends: the two chip-identification failures, `usage()`, a file
that cannot be opened (all `exit(1)`), or a completed command (`exit(0)`). -/
inductive Exit
  | no_chip
  | unknown_chip
  | usage
  | no_file
  | done
deriving DecidableEq

/-- One case of the `getopt` loop of `main`: the option character and the
numeric value of its argument. `none` is the call of `usage()`. -/
def main_option (cfg : Config) (ch : Char) (optarg : Nat) : Option Config :=
  if ch = 'b' then some { cfg with subpage_size := optarg }
  else if ch = 't' then some { cfg with test_mode := true }
  else if ch = 'v' then some { cfg with verify_after_write := true }
  else if ch = 'w' then some { cfg with check_status := true }
  else if ch = 'x' then
    (if optarg ≠ 0 ∧ optarg ≠ 1 then none else some { cfg with chip_select := optarg })
  else if ch = 'd' then some { cfg with debug_mode := true }
  else if ch = 'f' then some { cfg with force := true }
  else if ch = 's' then some { cfg with start_block := optarg }
  else if ch = 'q' then some { cfg with quick_check := true }
  else none

/-- The `getopt` loop of `main` over the options of the command line. -/
def main_options : Config → List (Char × Nat) → Option Config
  | cfg, [] => some cfg
  | cfg, (ch, optarg) :: rest =>
    match main_option cfg ch optarg with
    | none => none
    | some cfg1 => main_options cfg1 rest

/-- The `switch (flashid)` of `main`: the configuration with `num_blocks` set,
or the failure the run ends with. -/
def main_chip_switch (cfg : Config) (flashid : Nat) : Except Exit Config :=
  if flashid = 0xECF1 then .ok { cfg with num_blocks := 1024 }
  else if flashid = 0xADDC then .ok { cfg with num_blocks := 4096 }
  else if flashid = 0xECDC then .ok { cfg with num_blocks := 4096 }
  else if flashid = 0x2CDC then .ok { cfg with num_blocks := 4096 }
  else if flashid = 0x98DC then .ok { cfg with num_blocks := 4096 }
  else if flashid = 0 then .error Exit.no_chip
  else .error Exit.unknown_chip

/-- The block loop of the `program` command. -/
def program_blocks (env : Env) (fuel : Nat) (cfg : Config) (fp : List Nat) :
    List Nat → World → Option World
  | [], w => some w
  | blockno :: rest, w =>
    match flash_program_block env fuel cfg fp blockno w with
    | none => none
    | some (_, w1) => program_blocks env fuel cfg fp rest w1

/-- The block loop of the `dump` command. -/
def dump_blocks (env : Env) (fuel : Nat) (cfg : Config) :
    List Nat → List Nat → World → Option (List Nat × World)
  | [], fp, w => some (fp, w)
  | blockno :: rest, fp, w =>
    match flash_dump_block env fuel cfg fp blockno w with
    | none => none
    | some (_, fp1, w1) => dump_blocks env fuel cfg rest fp1 w1

/-- The block loop of the `erase` command. -/
def erase_blocks (env : Env) (fuel : Nat) (cfg : Config) : List Nat → World → Option World
  | [], w => some w
  | blockno :: rest, w =>
    match infectus_eraseblock env fuel cfg blockno w with
    | none => none
    | some (_, w1) => erase_blocks env fuel cfg rest w1

/-- The commands of `main` that drive the chip. `file` is the content of the
named file, `none` when no name was given or the file cannot be opened (the run
then ends with `exit(1)`); for `dump` the file is truncated first. -/
def main_commands (env : Env) (fuel : Nat) (cfg : Config) (command : String)
    (file : Option (List Nat)) (w : World) : Option (Exit × Option (List Nat) × World) :=
  if command = "program" then
    match file with
    | none => some (Exit.no_file, none, w)
    | some fp =>
      let num_pages := fp.length / (cfg.page_size + cfg.spare_size)
      let cfg1 :=
        if num_pages < cfg.num_blocks * cfg.pages_per_block then
          { cfg with num_blocks := num_pages / cfg.pages_per_block }
        else cfg
      match program_blocks env fuel cfg1 fp (for_indices cfg1.start_block 1 cfg1.num_blocks) w with
      | none => none
      | some w1 => some (Exit.done, some fp, w1)
  else if command = "dump" then
    match file with
    | none => some (Exit.no_file, none, w)
    | some _ =>
      match dump_blocks env fuel cfg (for_indices cfg.start_block 1 cfg.num_blocks) [] w with
      | none => none
      | some (fp1, w1) => some (Exit.done, some fp1, w1)
  else if command = "erase" then
    match erase_blocks env fuel cfg (for_indices 0 1 cfg.num_blocks) w with
    | none => none
    | some w1 => some (Exit.done, file, w1)
  else some (Exit.usage, file, w)

/-- The part of `main` from the chip lookup on: `flashid` is the value the last
`infectus_getflashid()` returned. -/
def main_tail (env : Env) (fuel : Nat) (cfg : Config) (command : String)
    (file : Option (List Nat)) (flashid : Nat) (w : World) :
    Option (Exit × Option (List Nat) × World) :=
  match main_chip_switch cfg flashid with
  | .error e => some (e, file, w)
  | .ok cfg1 => main_commands env fuel cfg1 command file w

/-- The part of `main` from the three chip identifications on. -/
def main_identify (env : Env) (fuel : Nat) (cfg : Config) (command : String)
    (file : Option (List Nat)) (w : World) : Option (Exit × Option (List Nat) × World) :=
  match infectus_getflashid env fuel w with
  | none => none
  | some (_, w1) =>
    match infectus_getflashid env fuel w1 with
    | none => none
    | some (_, w2) =>
      match infectus_getflashid env fuel w2 with
      | none => none
      | some (flashid, w3) => main_tail env fuel cfg command file flashid w3

/-! ## Adapter identity -/

/-- The table `pld_ids`. -/
def pld_ids : List String :=
  ["O2MOD", "Globe Hitachi", "Globe Samsung", "Infectus 78", "NAND Programmer",
    "2 NAND Programmer", "SPI Programmer", "XDowngrader"]

/-- What `infectus_check_pld_id` prints: the unknown-identity message with the
identity byte, or the table entry at that index (`none` when the index is
outside the table, where the C code reads past the array). -/
inductive PldReport
  | unknown (id : Nat)
  | entry (id : Nat) (found : Option String)
deriving DecidableEq

/-- `infectus_check_pld_id()`: `sizeof_ptr` is the size of a `char *` of the
platform, so that `sizeof pld_ids` is the table length times `sizeof_ptr`.
Returns the result and what was printed (nothing when the command failed). -/
def infectus_check_pld_id (env : Env) (fuel : Nat) (sizeof_ptr : Nat) (w : World) :
    Option (Int × Option PldReport × World) :=
  let buf := overwrite (zeros 128) [0x4c, 0x15, 0x00, 0x00, 0x00, 0x00, 0x00, 0x00]
  match infectus_sendcommand env fuel buf 8 128 w with
  | none => none
  | some (ret, buf1, w1) =>
    if ret < 0 then some (ret, none, w1)
    else if buf1.getD 1 0 > (pld_ids.length * sizeof_ptr) / 4 then
      some (0, some (PldReport.unknown (buf1.getD 1 0)), w1)
    else some (0, some (PldReport.entry (buf1.getD 1 0) pld_ids[buf1.getD 1 0]?), w1)

/-! ## Test devices -/

/-- A device that is not there: every bulk transfer fails with `-5`. -/
def env_dead : Env :=
  { usb_bulk_write := fun _ _ => -5
    usb_bulk_read := fun _ _ => (-5, [])
    check_ecc_wrong := fun _ => false }

/-- A device that accepts every frame in full and answers every read with the
same reply. -/
def env_const (reply : List Nat) : Env :=
  { usb_bulk_write := fun _ frame => frame.length
    usb_bulk_read := fun _ _ => (reply.length, reply)
    check_ecc_wrong := fun _ => false }

/-- A device that accepts every frame in full and fails every read with `-7`. -/
def env_mute : Env :=
  { usb_bulk_write := fun _ frame => frame.length
    usb_bulk_read := fun _ _ => (-7, [])
    check_ecc_wrong := fun _ => false }

/-- A small geometry for concrete runs: pages of 4 bytes moved in one chunk,
2 pages per block. -/
def cfg_tiny : Config :=
  { Config.initial with page_size := 4, spare_size := 0, subpage_size := 4, pages_per_block := 2 }

/-- A device that accepts every frame in full, answers a read of at most 128
bytes (a strobe) with the sync byte alone and any other read with the sync byte
followed by `page`. -/
def env_page (page : List Nat) : Env :=
  { usb_bulk_write := fun _ frame => frame.length
    usb_bulk_read := fun _ maxsize =>
      if maxsize = 128 then (1, [0xFF]) else (((page.length + 1 : Nat) : Int), 0xFF :: page)
    check_ecc_wrong := fun _ => false }

/-- The small geometry in test mode. -/
def cfg_tiny_test : Config := { cfg_tiny with test_mode := true }

/-- The globals after the command line `program -q file`. -/
def cfg_quick : Config := { Config.initial with quick_check := true }

/-- The small geometry with pages moved in two chunks of 2 bytes. -/
def cfg_tiny_halves : Config := { cfg_tiny with subpage_size := 2 }

/-- The empty initial state. -/
def World.empty : World := { usb := [], calls := [], blocks_done := 0 }

/-- A device that accepts every frame in full, answers the first read with
`first` and every later read with the single sync byte. -/
def env_desync (first : List Nat) : Env :=
  { usb_bulk_write := fun _ frame => frame.length
    usb_bulk_read := fun hist _ =>
      if hist.length ≤ 1 then ((first.length : Int), first) else (1, [0xFF])
    check_ecc_wrong := fun _ => false }

/-! ## Vocabulary of the statements -/

/-- The frame of a receive request for `len` bytes, as `infectus_nand_receive`
builds it. -/
def recv_frame (len : Nat) : List Nat :=
  [INFECTUS_NAND_CMD, INFECTUS_NAND_RECV, 0, 0, 0, 0, (len >>> 8) % 256, len % 256]

/-- The frame `infectus_nand_command` builds for an opcode and its address
bytes. -/
def command_frame (args : List Nat) : List Nat :=
  [INFECTUS_NAND_CMD, 0, 0, 0, 0, 0, 0, (args.length - 1) % 256] ++ args.map (fun a => a % 256)

/-- Log entries of the chip-modifying operations: erase and page write. -/
def Call.is_program : Call → Bool
  | .eraseblock _ => true
  | .writeflashpage _ _ => true
  | _ => false

/-- Log entries of page comparisons. -/
def Call.is_compare : Call → Bool
  | .compare _ => true
  | _ => false

/-- Log entries of frames handed to the transport. -/
def Call.is_sendcommand : Call → Bool
  | .sendcommand _ => true
  | _ => false

/-- What a page read leaves in the log: ECC warnings and the commands of
`infectus_readflashpage` (a receive request, or a command frame whose opcode
is the read pre-strobe or the read post-strobe). -/
def Call.is_passive : Call → Bool
  | .ecc_warning _ _ => true
  | .sendcommand frame =>
    frame.getD 0 0 = INFECTUS_NAND_CMD ∧
      ((frame.length = 8 ∧ frame.getD 1 0 = INFECTUS_NAND_RECV) ∨
        (frame.getD 1 0 = 0 ∧ (frame.getD 8 0 = NAND_READ_PRE ∨ frame.getD 8 0 = NAND_READ_POST)))
  | _ => false

/-- The state `w1` continues `w`: the log grew by `cs`, the bus history grew,
the counter is the same. -/
def Extends (w w1 : World) (cs : List Call) : Prop :=
  w1.calls = w.calls ++ cs ∧ w1.blocks_done = w.blocks_done ∧ ∃ evs, w1.usb = w.usb ++ evs

/-- The state `w1` continues `w` with log entries that all satisfy `P`. -/
def Grows (P : Call → Bool) (w w1 : World) : Prop :=
  ∃ cs, Extends w w1 cs ∧ ∀ c ∈ cs, P c = true

/-- The page number of page `pageno` of block `blockno`, as the block loops
compute it (`unsigned int`). -/
def block_page (cfg : Config) (blockno pageno : Nat) : Nat :=
  (blockno * cfg.pages_per_block + pageno) % 2 ^ 32

/-- The bytes `file_readflashpage` reads for a page: up to
`page_size + spare_size` bytes of the file from the page offset. -/
def file_page (cfg : Config) (fp : List Nat) (pageno : Nat) : List Nat :=
  (fp.drop ((pageno * (cfg.page_size + cfg.spare_size)) % 2 ^ 32)).take
    (cfg.page_size + cfg.spare_size)

/-- Every byte of the list is `0xFF`. -/
def all_FF (l : List Nat) : Bool := l.all (fun b => b == 0xFF)

/-- Log entries of a page comparison: its entry, ECC warnings, read commands. -/
def Call.is_read (c : Call) : Bool := c.is_passive || c.is_compare

/-- Log entries that send nothing to the chip but read commands: those of a
comparison and the bare entries of erase and page write. -/
def Call.is_quiet (c : Call) : Bool := c.is_read || c.is_program

/-- The state `w1` continues `w`, and the new log entries that satisfy `Q`
are, in order, `l`. -/
def Logged (Q : Call → Bool) (w w1 : World) (l : List Call) : Prop :=
  ∃ cs, Extends w w1 cs ∧ cs.filter Q = l

/-- What a run shows apart from the ghost log: result, buffer, bus history. -/
def bus_view (r : Int × List Nat × World) : Int × List Nat × List UsbEvent :=
  (r.1, r.2.1, r.2.2.usb)

/-- The frame of a data transfer of `len` bytes, as `infectus_nand_send` builds
it: the header, then the payload. -/
def send_frame (len : Nat) (payload : List Nat) : List Nat :=
  [0x4e, 0x01, 0, 0, 0, 0, (len / 256) % 256, len % 256] ++ payload

/-- The two commands of one status query (`infectus_getstatus`). -/
def status_poll : List Call :=
  [Call.sendcommand (command_frame [NAND_GETSTATUS]), Call.sendcommand (recv_frame 1)]

/-- The three commands of round `i` of a page write: the pre-strobe (opcode
`0x80`) with the column offset `i * subpage_size` as low byte, high byte and
the three bytes of the row address `pageno`; the data frame with chunk `i` of
`page` as payload; the commit strobe (opcode `0x10`). -/
def write_round (cfg : Config) (pageno : Nat) (page : List Nat) (i : Nat) : List Call :=
  [Call.sendcommand [0x4e, 0, 0, 0, 0, 0, 0, 5, 0x80,
      (i * cfg.subpage_size) % 256, (i * cfg.subpage_size) / 256 % 256,
      pageno % 256, pageno / 256 % 256, pageno / 65536 % 256],
    Call.sendcommand ([0x4e, 0x01, 0, 0, 0, 0, cfg.subpage_size / 256 % 256,
      cfg.subpage_size % 256] ++ (page.drop (i * cfg.subpage_size)).take cfg.subpage_size),
    Call.sendcommand [0x4e, 0, 0, 0, 0, 0, 0, 0, 0x10]]

/-- The 12-byte erase pre-strobe for the row address `r`: header with the
count of address bytes, opcode `0x60`, then the low, middle and high byte of
`r`. -/
def erase_pre_frame (r : Nat) : List Nat :=
  [0x4e, 0, 0, 0, 0, 0, 0, 3, 0x60, r % 256, r / 256 % 256, r / 65536 % 256]

/-- The 9-byte erase commit strobe, opcode `0xD0`. -/
def erase_post_frame : List Nat := [0x4e, 0, 0, 0, 0, 0, 0, 0, 0xd0]

/-! ## Theorems -/

/-- Trace of the transport loop: when it returns, the bus history has grown by
transfers that all succeeded, followed by one last transfer whose return value
is the result; the ghost log and the counter are untouched. -/
theorem sendcommand_loop_trace (env : Env) (len maxsize : Nat) :
    ∀ (fuel : Nat) (ret : Int) (buf : List Nat) (w : World) (r : Int) (buf1 : List Nat)
      (w1 : World),
      sendcommand_loop env fuel ret buf len maxsize w = some (r, buf1, w1) →
      ∃ evs e, w1.usb = w.usb ++ evs ++ [e] ∧ (∀ x ∈ evs, 0 ≤ x.ret) ∧ r = e.ret ∧
        (∀ f q, e = UsbEvent.write f q → q < 0) ∧
        w1.calls = w.calls ∧ w1.blocks_done = w.blocks_done := by
  intro fuel
  induction fuel with
  | zero => intro ret buf w r buf1 w1 h; simp [sendcommand_loop] at h
  | succ n ih =>
    intro ret buf w r buf1 w1 h
    simp only [sendcommand_loop] at h
    split at h
    · split at h
      · simp only [Option.some.injEq, Prod.mk.injEq] at h
        obtain ⟨h1, -, h3⟩ := h
        subst h3
        refine ⟨[], UsbEvent.write (buf.take len) (env.usb_bulk_write w.usb (buf.take len)),
          by simp [World.bus], by simp, by simp [UsbEvent.ret, h1], ?_, rfl, rfl⟩
        intro f q hq
        simp only [UsbEvent.write.injEq] at hq
        omega
      · rename_i hnn
        obtain ⟨evs, e, h1, h2, h3, h4, h5, h6⟩ := ih _ _ _ _ _ _ h
        refine ⟨UsbEvent.write (buf.take len) (env.usb_bulk_write w.usb (buf.take len)) :: evs,
          e, by simp [h1, World.bus], ?_, h3, h4, by simp [h5, World.bus],
          by simp [h6, World.bus]⟩
        intro x hx
        rcases List.mem_cons.mp hx with hx | hx
        · subst hx; simp only [UsbEvent.ret]; omega
        · exact h2 x hx
    · split at h
      · simp only [Option.some.injEq, Prod.mk.injEq] at h
        obtain ⟨h1, -, h3⟩ := h
        subst h3
        refine ⟨[], UsbEvent.read maxsize (env.usb_bulk_read w.usb maxsize).1
          (env.usb_bulk_read w.usb maxsize).2,
          by simp [World.bus], by simp, by simp [UsbEvent.ret, h1], ?_, rfl, rfl⟩
        intro f q hq
        simp at hq
      · rename_i hnn
        split at h
        · obtain ⟨evs, e, h1, h2, h3, h4, h5, h6⟩ := ih _ _ _ _ _ _ h
          refine ⟨UsbEvent.read maxsize (env.usb_bulk_read w.usb maxsize).1
            (env.usb_bulk_read w.usb maxsize).2 :: evs, e, by simp [h1, World.bus], ?_, h3, h4,
            by simp [h5, World.bus], by simp [h6, World.bus]⟩
          intro x hx
          rcases List.mem_cons.mp hx with hx | hx
          · subst hx; simp only [UsbEvent.ret]; omega
          · exact h2 x hx
        · simp only [Option.some.injEq, Prod.mk.injEq] at h
          obtain ⟨h1, -, h3⟩ := h
          subst h3
          refine ⟨[], UsbEvent.read maxsize (env.usb_bulk_read w.usb maxsize).1
            (env.usb_bulk_read w.usb maxsize).2,
            by simp [World.bus], by simp, by simp [UsbEvent.ret, h1], ?_, rfl, rfl⟩
          intro f q hq
          simp at hq

/-- C1: `infectus_sendcommand` fails exactly along the transport. (1) Whenever
it returns, the bus history has grown by transfers that all succeeded followed
by one last transfer, and the result is the return value of that last transfer,
which is a read or a failed write; so the result is negative exactly when a
transfer failed, no transfer follows a failed one, and a failed write is not
followed by a read. (2) At any pass of the loop, a bulk write that returns a
negative value makes the function return that value at once. (3) Likewise a
bulk read that returns a negative value. -/
theorem infectus_sendcommand_fails_along_transport (env : Env) (buf : List Nat)
    (len maxsize : Nat) (w : World) :
    (∀ fuel r buf1 w1, infectus_sendcommand env fuel buf len maxsize w = some (r, buf1, w1) →
      ∃ evs e, w1.usb = w.usb ++ evs ++ [e] ∧ (∀ x ∈ evs, 0 ≤ x.ret) ∧ r = e.ret ∧
        (∀ f q, e = UsbEvent.write f q → q < 0)) ∧
    (∀ fuel ret b v, ret < (len : Int) → env.usb_bulk_write v.usb (b.take len) < 0 →
      sendcommand_loop env (fuel + 1) ret b len maxsize v =
        some (env.usb_bulk_write v.usb (b.take len), b,
          v.bus (UsbEvent.write (b.take len) (env.usb_bulk_write v.usb (b.take len))))) ∧
    (∀ fuel ret b v, ¬ ret < (len : Int) → (env.usb_bulk_read v.usb maxsize).1 < 0 →
      sendcommand_loop env (fuel + 1) ret b len maxsize v =
        some ((env.usb_bulk_read v.usb maxsize).1, b,
          v.bus (UsbEvent.read maxsize (env.usb_bulk_read v.usb maxsize).1
            (env.usb_bulk_read v.usb maxsize).2))) := by
  refine ⟨?_, ?_, ?_⟩
  · intro fuel r buf1 w1 h
    obtain ⟨evs, e, h1, h2, h3, h4, -, -⟩ := sendcommand_loop_trace env len maxsize _ _ _ _ _ _ _ h
    exact ⟨evs, e, by simpa [World.log] using h1, h2, h3, h4⟩
  · intro fuel ret b v h1 h2
    simp [sendcommand_loop, h1, h2]
  · intro fuel ret b v h1 h2
    simp [sendcommand_loop, h1, h2]

/-- Witness for C1 on a device whose transfers all fail with `-5`: the command
returns `-5` after the one failed write. -/
theorem infectus_sendcommand_fails_along_transport_witness :
    (∃ evs e, [UsbEvent.write [0x45, 0x15, 0, 0, 0, 0, 0, 0] (-5)] = [] ++ evs ++ [e] ∧
      (∀ x ∈ evs, 0 ≤ x.ret) ∧ (-5 : Int) = e.ret ∧
      (∀ f q, e = UsbEvent.write f q → q < 0)) ∧
    sendcommand_loop env_dead 1 0 [0x45, 0x15, 0, 0, 0, 0, 0, 0] 8 128 World.empty =
      some (-5, [0x45, 0x15, 0, 0, 0, 0, 0, 0],
        World.empty.bus (UsbEvent.write [0x45, 0x15, 0, 0, 0, 0, 0, 0] (-5))) ∧
    sendcommand_loop env_mute 1 8 [0x45, 0x15, 0, 0, 0, 0, 0, 0] 8 128 World.empty =
      some (-7, [0x45, 0x15, 0, 0, 0, 0, 0, 0], World.empty.bus (UsbEvent.read 128 (-7) [])) :=
  ⟨(infectus_sendcommand_fails_along_transport env_dead [0x45, 0x15, 0, 0, 0, 0, 0, 0] 8 128
      World.empty).1 1 (-5) [0x45, 0x15, 0, 0, 0, 0, 0, 0]
      { usb := [UsbEvent.write [0x45, 0x15, 0, 0, 0, 0, 0, 0] (-5)],
        calls := [Call.sendcommand [0x45, 0x15, 0, 0, 0, 0, 0, 0]], blocks_done := 0 }
      (by decide),
    (infectus_sendcommand_fails_along_transport env_dead [] 8 128 World.empty).2.1 0 0
      [0x45, 0x15, 0, 0, 0, 0, 0, 0] World.empty (by decide) (by decide),
    (infectus_sendcommand_fails_along_transport env_mute [] 8 128 World.empty).2.2 0 8
      [0x45, 0x15, 0, 0, 0, 0, 0, 0] World.empty (by decide) (by decide)⟩

/-- C2 (the code at the failing inputs): the frame is the 8-byte reset command.
When the first reply is 8 bytes long and starts with `0x00`, the next transfer
is a read: the frame is not written again. When the first reply is the two
bytes `00 01`, a frame is written again, but it is the buffer with the reply
stored over its first two bytes, not the frame first transmitted. -/
theorem infectus_sendcommand_resend_diverges :
    (infectus_sendcommand (env_desync [0, 1, 2, 3, 4, 5, 6, 7]) 3
        [0x45, 0x15, 0, 0, 0, 0, 0, 0] 8 128 World.empty).map (fun r => r.2.2.usb) =
      some [UsbEvent.write [0x45, 0x15, 0, 0, 0, 0, 0, 0] 8,
        UsbEvent.read 128 8 [0, 1, 2, 3, 4, 5, 6, 7],
        UsbEvent.read 128 1 [0xFF]] ∧
    (infectus_sendcommand (env_desync [0, 1]) 4
        [0x45, 0x15, 0, 0, 0, 0, 0, 0] 8 128 World.empty).map (fun r => r.2.2.usb) =
      some [UsbEvent.write [0x45, 0x15, 0, 0, 0, 0, 0, 0] 8,
        UsbEvent.read 128 2 [0, 1],
        UsbEvent.write [0, 1, 0, 0, 0, 0, 0, 0] 8,
        UsbEvent.read 128 1 [0xFF]] := by
  decide

set_option maxRecDepth 100000 in
/-- C3 (counterexample): on a device whose transfers all fail with `-5`,
`infectus_readflashpage` of page 0 with the default geometry still issues all
five commands (two strobes, three receive requests), each a failed write, and
returns `-18`, not the failure `-5`. -/
theorem infectus_readflashpage_continues_after_failure :
    (infectus_readflashpage env_dead 1 Config.initial (zeros PAGEBUF_SIZE) 0 World.empty).map
        (fun r => (r.1, r.2.2.usb.map UsbEvent.ret)) =
      some (-18, [-5, -5, -5, -5, -5]) := by
  decide

/-! ### Frames -/

theorem nand_receive_frame (buf : List Nat) (n : Nat) :
    (((((overwrite buf (zeros 8)).set 0 INFECTUS_NAND_CMD).set 1 INFECTUS_NAND_RECV).set 6
      ((n >>> 8) % 256)).set 7 (n % 256)).take 8 = recv_frame n := by
  simp [overwrite, zeros, List.replicate, recv_frame]

theorem Extends.ext_refl (w : World) : Extends w w [] :=
  ⟨by simp, rfl, [], by simp⟩

theorem Extends.ext_trans {w w1 w2 : World} {cs ds : List Call} (h1 : Extends w w1 cs)
    (h2 : Extends w1 w2 ds) : Extends w w2 (cs ++ ds) := by
  obtain ⟨a1, b1, e1, c1⟩ := h1
  obtain ⟨a2, b2, e2, c2⟩ := h2
  exact ⟨by rw [a2, a1, List.append_assoc], by rw [b2, b1], e1 ++ e2,
    by rw [c2, c1, List.append_assoc]⟩

theorem Extends.ext_log (w : World) (c : Call) : Extends w (w.log c) [c] :=
  ⟨rfl, rfl, [], by simp [World.log]⟩

/-- What one command does to the state. -/
theorem infectus_sendcommand_effect {env : Env} {fuel : Nat} {buf : List Nat}
    {len maxsize : Nat} {w : World} {r : Int} {buf1 : List Nat} {w1 : World}
    (h : infectus_sendcommand env fuel buf len maxsize w = some (r, buf1, w1)) :
    ∃ evs e, w1.usb = w.usb ++ (evs ++ [e]) ∧ (∀ x ∈ evs, 0 ≤ x.ret) ∧ r = e.ret ∧
      w1.calls = w.calls ++ [Call.sendcommand (buf.take len)] ∧
      w1.blocks_done = w.blocks_done := by
  obtain ⟨evs, e, h1, h2, h3, -, h5, h6⟩ := sendcommand_loop_trace env len maxsize _ _ _ _ _ _ _ h
  exact ⟨evs, e, by simpa [World.log] using h1, h2, h3, by simpa [World.log] using h5,
    by simpa [World.log] using h6⟩

theorem infectus_sendcommand_extends {env : Env} {fuel : Nat} {buf : List Nat}
    {len maxsize : Nat} {w : World} {r : Int} {buf1 : List Nat} {w1 : World}
    (h : infectus_sendcommand env fuel buf len maxsize w = some (r, buf1, w1)) :
    Extends w w1 [Call.sendcommand (buf.take len)] := by
  obtain ⟨evs, e, h1, -, -, h4, h5⟩ := infectus_sendcommand_effect h
  exact ⟨h4, h5, _, h1⟩

/-- What one receive request does to the state: a non-empty run of transfers
whose last return value is the result. -/
theorem infectus_nand_receive_effect {env : Env} {fuel : Nat} {buf : List Nat} {n : Nat}
    {w : World} {r : Int} {buf1 : List Nat} {w1 : World}
    (h : infectus_nand_receive env fuel buf n w = some (r, buf1, w1)) :
    ∃ seg, seg ≠ [] ∧ w1.usb = w.usb ++ seg ∧ r = (seg.getLast?.map UsbEvent.ret).getD 0 ∧
      w1.calls = w.calls ++ [Call.sendcommand (recv_frame n)] ∧
      w1.blocks_done = w.blocks_done := by
  unfold infectus_nand_receive at h
  obtain ⟨evs, e, h1, -, h3, h4, h5⟩ := infectus_sendcommand_effect h
  refine ⟨evs ++ [e], by simp, h1, by simp [h3], ?_, h5⟩
  rw [h4, nand_receive_frame]

/-- The chunk loop of a page read never stops early: one receive request per
chunk index, and the length grows by the result of each minus one. -/
theorem readflashpage_chunks_effect (env : Env) (fuel : Nat) (cfg : Config) :
    ∀ (idxs : List Nat) (flash_buf dstbuf : List Nat) (len0 : Int) (w : World) (len : Int)
      (dst1 : List Nat) (w1 : World),
      readflashpage_chunks env fuel cfg idxs flash_buf dstbuf len0 w = some (len, dst1, w1) →
      ∃ segs : List (List UsbEvent), segs.length = idxs.length ∧ (∀ s ∈ segs, s ≠ []) ∧
        w1.usb = w.usb ++ segs.flatten ∧
        len = len0 + (segs.map (fun s => (s.getLast?.map UsbEvent.ret).getD 0 - 1)).sum ∧
        w1.calls = w.calls ++
          List.replicate idxs.length (Call.sendcommand (recv_frame cfg.subpage_size)) ∧
        w1.blocks_done = w.blocks_done := by
  intro idxs
  induction idxs with
  | nil =>
    intro flash_buf dstbuf len0 w len dst1 w1 h
    simp only [readflashpage_chunks, Option.some.injEq, Prod.mk.injEq] at h
    obtain ⟨h1, -, h3⟩ := h
    subst h1 h3
    exact ⟨[], by simp⟩
  | cons i rest ih =>
    intro flash_buf dstbuf len0 w len dst1 w1 h
    simp only [readflashpage_chunks] at h
    split at h
    · simp at h
    · rename_i ret fb1 w0 hrecv
      obtain ⟨seg, s1, s2, s3, s4, s5⟩ := infectus_nand_receive_effect hrecv
      obtain ⟨segs, t1, t2, t3, t4, t5, t6⟩ := ih _ _ _ _ _ _ _ h
      refine ⟨seg :: segs, by simp [t1], ?_, ?_, ?_, ?_, by rw [t6, s5]⟩
      · intro s hs
        rcases List.mem_cons.mp hs with hs | hs
        · subst hs; exact s1
        · exact t2 s hs
      · rw [t3, s2]; simp
      · rw [t4, s3]; simp; ring
      · rw [t5, s4]; simp [List.replicate_succ]

theorem nand_command_frame0 (buf : List Nat) (a : Nat) :
    (infectus_nand_command buf 0 [a]).1.take (infectus_nand_command buf 0 [a]).2 =
      command_frame [a] := by
  simp [infectus_nand_command, overwrite, zeros, List.replicate, List.range, List.range.loop,
    command_frame]

theorem nand_command_frame5 (buf : List Nat) (a b c d e f : Nat) :
    (infectus_nand_command buf 5 [a, b, c, d, e, f]).1.take
        (infectus_nand_command buf 5 [a, b, c, d, e, f]).2 =
      command_frame [a, b, c, d, e, f] := by
  simp [infectus_nand_command, overwrite, zeros, List.replicate, List.range, List.range.loop,
    command_frame]

/-- What a page read does to the state, whatever its transfers returned. -/
theorem infectus_readflashpage_effect {env : Env} {fuel : Nat} {cfg : Config}
    {dstbuf : List Nat} {pageno : Nat} {w : World} {len : Int} {dst1 : List Nat} {w1 : World}
    (h : infectus_readflashpage env fuel cfg dstbuf pageno w = some (len, dst1, w1)) :
    ∃ (chunks : Nat) (strobes : List UsbEvent) (segs : List (List UsbEvent)),
      page_chunks cfg = some chunks ∧ segs.length = chunks ∧ (∀ s ∈ segs, s ≠ []) ∧
      w1.usb = w.usb ++ strobes ++ segs.flatten ∧
      len = (segs.map (fun s => (s.getLast?.map UsbEvent.ret).getD 0 - 1)).sum ∧
      w1.calls = w.calls ++
        [Call.sendcommand
          (command_frame [NAND_READ_PRE, 0, 0, pageno, pageno >>> 8, pageno >>> 16]),
         Call.sendcommand (command_frame [NAND_READ_POST])] ++
        List.replicate chunks (Call.sendcommand (recv_frame cfg.subpage_size)) ∧
      w1.blocks_done = w.blocks_done := by
  unfold infectus_readflashpage at h
  simp only at h
  split at h
  · simp at h
  · rename_i r1 b1 v1 h1
    split at h
    · simp at h
    · rename_i r2 b2 v2 h2
      split at h
      · simp at h
      · rename_i chunks hc
        obtain ⟨e1, l1, u1, -, -, c1, d1⟩ := infectus_sendcommand_effect h1
        obtain ⟨e2, l2, u2, -, -, c2, d2⟩ := infectus_sendcommand_effect h2
        obtain ⟨segs, t1, t2, t3, t4, t5, t6⟩ :=
          readflashpage_chunks_effect env fuel cfg _ _ _ _ _ _ _ _ h
        rw [nand_command_frame5] at c1
        rw [nand_command_frame0] at c2
        refine ⟨chunks, (e1 ++ [l1]) ++ (e2 ++ [l2]), segs, hc, by simpa using t1, t2, ?_, ?_,
          ?_, by rw [t6, d2, d1]⟩
        · rw [t3, u2, u1]; simp
        · rw [t4]; simp
        · rw [t5, c2, c1]; simp

/-- C3 (amended): a transport failure does not abort `infectus_readflashpage`.
Whenever it returns, whatever the transfers returned, it has issued the two
strobes and one receive request for every chunk, and the value returned is the
sum over the chunks of the result of the receive request (the return value of
its last transfer, negative when that transfer failed) minus one. -/
theorem infectus_readflashpage_never_aborts (env : Env) (fuel : Nat) (cfg : Config)
    (dstbuf : List Nat) (pageno : Nat) (w : World) (len : Int) (dst1 : List Nat) (w1 : World)
    (h : infectus_readflashpage env fuel cfg dstbuf pageno w = some (len, dst1, w1)) :
    ∃ (chunks : Nat) (strobes : List UsbEvent) (segs : List (List UsbEvent)),
      page_chunks cfg = some chunks ∧ segs.length = chunks ∧ (∀ s ∈ segs, s ≠ []) ∧
      w1.usb = w.usb ++ strobes ++ segs.flatten ∧
      len = (segs.map (fun s => (s.getLast?.map UsbEvent.ret).getD 0 - 1)).sum ∧
      w1.calls = w.calls ++
        [Call.sendcommand
          (command_frame [NAND_READ_PRE, 0, 0, pageno, pageno >>> 8, pageno >>> 16]),
         Call.sendcommand (command_frame [NAND_READ_POST])] ++
        List.replicate chunks (Call.sendcommand (recv_frame cfg.subpage_size)) := by
  obtain ⟨chunks, strobes, segs, h1, h2, h3, h4, h5, h6, -⟩ := infectus_readflashpage_effect h
  exact ⟨chunks, strobes, segs, h1, h2, h3, h4, h5, h6⟩

set_option maxRecDepth 100000 in
/-- Witness for C3 (amended): the run on the device whose transfers all fail. -/
theorem infectus_readflashpage_never_aborts_witness :
    ∃ (len : Int) (dst1 : List Nat) (w1 : World),
      infectus_readflashpage env_dead 1 Config.initial (zeros PAGEBUF_SIZE) 0 World.empty =
        some (len, dst1, w1) ∧
      ∃ (chunks : Nat) (strobes : List UsbEvent) (segs : List (List UsbEvent)),
        page_chunks Config.initial = some chunks ∧ segs.length = chunks ∧
        (∀ s ∈ segs, s ≠ []) ∧
        w1.usb = World.empty.usb ++ strobes ++ segs.flatten ∧
        len = (segs.map (fun s => (s.getLast?.map UsbEvent.ret).getD 0 - 1)).sum ∧
        w1.calls = World.empty.calls ++
          [Call.sendcommand (command_frame [NAND_READ_PRE, 0, 0, 0, 0 >>> 8, 0 >>> 16]),
           Call.sendcommand (command_frame [NAND_READ_POST])] ++
          List.replicate chunks (Call.sendcommand (recv_frame Config.initial.subpage_size)) := by
  have hs : (infectus_readflashpage env_dead 1 Config.initial (zeros PAGEBUF_SIZE) 0
      World.empty).isSome = true := by decide
  obtain ⟨⟨len, dst1, w1⟩, h⟩ := Option.isSome_iff_exists.mp hs
  exact ⟨len, dst1, w1, h, infectus_readflashpage_never_aborts _ _ _ _ _ _ _ _ _ h⟩

/-! ### How the operations extend the log -/

theorem Grows.refl (P : Call → Bool) (w : World) : Grows P w w :=
  ⟨[], Extends.ext_refl w, by simp⟩

theorem Grows.trans {P : Call → Bool} {w w1 w2 : World} (h1 : Grows P w w1)
    (h2 : Grows P w1 w2) : Grows P w w2 := by
  obtain ⟨cs, e1, p1⟩ := h1
  obtain ⟨ds, e2, p2⟩ := h2
  refine ⟨cs ++ ds, e1.ext_trans e2, ?_⟩
  intro c hc
  rcases List.mem_append.mp hc with hc | hc
  · exact p1 c hc
  · exact p2 c hc

theorem Grows.mono {P Q : Call → Bool} {w w1 : World} (hPQ : ∀ c, P c = true → Q c = true)
    (h : Grows P w w1) : Grows Q w w1 := by
  obtain ⟨cs, e1, p1⟩ := h
  exact ⟨cs, e1, fun c hc => hPQ c (p1 c hc)⟩

theorem infectus_sendcommand_grows {env : Env} {fuel : Nat} {buf : List Nat}
    {len maxsize : Nat} {w : World} {r : Int} {buf1 : List Nat} {w1 : World}
    (h : infectus_sendcommand env fuel buf len maxsize w = some (r, buf1, w1)) :
    Grows Call.is_sendcommand w w1 :=
  ⟨_, infectus_sendcommand_extends h, by simp [Call.is_sendcommand]⟩

theorem infectus_nand_receive_grows {env : Env} {fuel : Nat} {buf : List Nat} {n : Nat}
    {w : World} {r : Int} {buf1 : List Nat} {w1 : World}
    (h : infectus_nand_receive env fuel buf n w = some (r, buf1, w1)) :
    Grows Call.is_sendcommand w w1 := by
  unfold infectus_nand_receive at h
  exact infectus_sendcommand_grows h

theorem infectus_nand_send_grows {env : Env} {fuel : Nat} {buf : List Nat} {n : Nat}
    {w : World} {r : Int} {buf1 : List Nat} {w1 : World}
    (h : infectus_nand_send env fuel buf n w = some (r, buf1, w1)) :
    Grows Call.is_sendcommand w w1 := by
  unfold infectus_nand_send at h
  simp only at h
  split at h
  · simp at h
  · rename_i r0 t0 v0 h0
    have g := infectus_sendcommand_grows h0
    split at h
    · simp only [Option.some.injEq, Prod.mk.injEq] at h
      obtain ⟨-, -, h3⟩ := h
      subst h3; exact g
    · simp only [Option.some.injEq, Prod.mk.injEq] at h
      obtain ⟨-, -, h3⟩ := h
      subst h3; exact g

theorem infectus_getstatus_grows {env : Env} {fuel : Nat} {w : World} {st : Nat} {w1 : World}
    (h : infectus_getstatus env fuel w = some (st, w1)) :
    Grows Call.is_sendcommand w w1 := by
  unfold infectus_getstatus at h
  simp only at h
  split at h
  · simp at h
  · rename_i r0 b0 v0 h0
    split at h
    · simp at h
    · rename_i r1 b1 v1 h1
      simp only [Option.some.injEq, Prod.mk.injEq] at h
      obtain ⟨-, h3⟩ := h
      subst h3
      exact (infectus_sendcommand_grows h0).trans (infectus_nand_receive_grows h1)

theorem wait_flash_grows (env : Env) (fuel : Nat) :
    ∀ (n : Nat) (w w1 : World), wait_flash env fuel n w = some w1 →
      Grows Call.is_sendcommand w w1 := by
  intro n
  induction n with
  | zero => intro w w1 h; simp [wait_flash] at h
  | succ n ih =>
    intro w w1 h
    simp only [wait_flash] at h
    split at h
    · simp at h
    · rename_i st v0 h0
      have g := infectus_getstatus_grows h0
      split at h
      · exact g.trans (ih _ _ h)
      · simp only [Option.some.injEq] at h
        subst h; exact g

theorem status_wait_grows {env : Env} {fuel : Nat} {b : Bool} {w w1 : World}
    (h : (if b = true then wait_flash env fuel fuel w else some w) = some w1) :
    Grows Call.is_sendcommand w w1 := by
  split at h
  · exact wait_flash_grows env fuel _ _ _ h
  · simp only [Option.some.injEq] at h
    subst h; exact Grows.refl _ _

theorem writeflashpage_chunks_grows (env : Env) (fuel : Nat) (cfg : Config) (pageno : Nat) :
    ∀ (idxs : List Nat) (buf dstbuf : List Nat) (w : World) (dst1 : List Nat) (w1 : World),
      writeflashpage_chunks env fuel cfg pageno idxs buf dstbuf w = some (dst1, w1) →
      Grows Call.is_sendcommand w w1 := by
  intro idxs
  induction idxs with
  | nil =>
    intro buf dstbuf w dst1 w1 h
    simp only [writeflashpage_chunks, Option.some.injEq, Prod.mk.injEq] at h
    obtain ⟨-, h2⟩ := h
    subst h2; exact Grows.refl _ _
  | cons i rest ih =>
    intro buf dstbuf w dst1 w1 h
    simp only [writeflashpage_chunks] at h
    split at h
    · simp at h
    · rename_i r1 b1 v1 h1
      split at h
      · simp at h
      · rename_i r2 t2 v2 h2
        split at h
        · simp at h
        · rename_i r3 b3 v3 h3
          split at h
          · simp at h
          · rename_i v4 h4
            exact (((infectus_sendcommand_grows h1).trans (infectus_nand_send_grows h2)).trans
              ((infectus_sendcommand_grows h3).trans (status_wait_grows h4))).trans
              (ih _ _ _ _ _ h)

/-- A page write logs its entry, then only transport commands; in test mode
nothing but the entry. -/
theorem infectus_writeflashpage_grows {env : Env} {fuel : Nat} {cfg : Config}
    {dstbuf : List Nat} {pageno : Nat} {w : World} {r : Int} {dst1 : List Nat} {w1 : World}
    (h : infectus_writeflashpage env fuel cfg dstbuf pageno w = some (r, dst1, w1)) :
    Grows Call.is_sendcommand
      (w.log (Call.writeflashpage pageno (dstbuf.take (cfg.page_size + cfg.spare_size)))) w1 := by
  unfold infectus_writeflashpage at h
  simp only at h
  split at h
  · simp only [Option.some.injEq, Prod.mk.injEq] at h
    obtain ⟨-, -, h3⟩ := h
    subst h3; exact Grows.refl _ _
  · split at h
    · simp at h
    · split at h
      · simp at h
      · rename_i chunks hc d1 v1 h1
        simp only [Option.some.injEq, Prod.mk.injEq] at h
        obtain ⟨-, -, h3⟩ := h
        subst h3
        exact writeflashpage_chunks_grows env fuel cfg pageno _ _ _ _ _ _ h1

/-- A block erase logs its entry, then only transport commands. -/
theorem infectus_eraseblock_grows {env : Env} {fuel : Nat} {cfg : Config} {blockno : Nat}
    {w : World} {r : Int} {w1 : World}
    (h : infectus_eraseblock env fuel cfg blockno w = some (r, w1)) :
    Grows Call.is_sendcommand (w.log (Call.eraseblock blockno)) w1 := by
  unfold infectus_eraseblock at h
  simp only at h
  split at h
  · simp only [Option.some.injEq, Prod.mk.injEq] at h
    obtain ⟨-, h3⟩ := h
    subst h3; exact Grows.refl _ _
  · split at h
    · simp at h
    · rename_i r1 b1 v1 h1
      split at h
      · simp at h
      · rename_i r2 b2 v2 h2
        split at h
        · simp at h
        · rename_i v3 h3
          simp only [Option.some.injEq, Prod.mk.injEq] at h
          obtain ⟨-, h4⟩ := h
          subst h4
          exact ((infectus_sendcommand_grows h1).trans (infectus_sendcommand_grows h2)).trans
            (status_wait_grows h3)

/-! ### The ghost log and the ECC classifier never influence the bus -/

theorem view_cases {a b : Option (Int × List Nat × World)}
    (h : a.map bus_view = b.map bus_view) :
    (a = none ∧ b = none) ∨
      ∃ r buf w v, a = some (r, buf, w) ∧ b = some (r, buf, v) ∧ w.usb = v.usb := by
  cases a with
  | none =>
    cases b with
    | none => exact Or.inl ⟨rfl, rfl⟩
    | some y => simp at h
  | some x =>
    cases b with
    | none => simp at h
    | some y =>
      obtain ⟨r, buf, w⟩ := x
      obtain ⟨r1, buf1, v⟩ := y
      simp only [Option.map_some', bus_view, Option.some.injEq, Prod.mk.injEq] at h
      obtain ⟨h1, h2, h3⟩ := h
      subst h1 h2
      exact Or.inr ⟨r, buf, w, v, rfl, rfl, h3⟩

theorem sendcommand_loop_view (env env1 : Env)
    (hw : env.usb_bulk_write = env1.usb_bulk_write)
    (hr : env.usb_bulk_read = env1.usb_bulk_read) (len maxsize : Nat) :
    ∀ (fuel : Nat) (ret : Int) (buf : List Nat) (w v : World), w.usb = v.usb →
      (sendcommand_loop env fuel ret buf len maxsize w).map bus_view =
        (sendcommand_loop env1 fuel ret buf len maxsize v).map bus_view := by
  intro fuel
  induction fuel with
  | zero => intro ret buf w v _; simp [sendcommand_loop]
  | succ n ih =>
    intro ret buf w v h
    simp only [sendcommand_loop, h, hw, hr]
    by_cases c1 : ret < (len : Int)
    · simp only [c1, if_true]
      by_cases c2 : env1.usb_bulk_write v.usb (List.take len buf) < 0
      · simp [c2, bus_view, World.bus, h]
      · simp only [c2, if_false]
        exact ih _ _ _ _ (by simp [World.bus, h])
    · simp only [c1, if_false]
      by_cases c2 : (env1.usb_bulk_read v.usb maxsize).1 < 0
      · simp [c2, bus_view, World.bus, h]
      · simp only [c2, if_false]
        split
        · exact ih _ _ _ _ (by simp [World.bus, h])
        · simp [bus_view, World.bus, h]

theorem infectus_sendcommand_view {env env1 : Env}
    (hw : env.usb_bulk_write = env1.usb_bulk_write)
    (hr : env.usb_bulk_read = env1.usb_bulk_read) (fuel : Nat) (buf : List Nat)
    (len maxsize : Nat) {w v : World} (h : w.usb = v.usb) :
    (infectus_sendcommand env fuel buf len maxsize w).map bus_view =
      (infectus_sendcommand env1 fuel buf len maxsize v).map bus_view :=
  sendcommand_loop_view env env1 hw hr len maxsize fuel 0 buf _ _ (by simpa [World.log] using h)

theorem infectus_nand_receive_view {env env1 : Env}
    (hw : env.usb_bulk_write = env1.usb_bulk_write)
    (hr : env.usb_bulk_read = env1.usb_bulk_read) (fuel : Nat) (buf : List Nat)
    (n : Nat) {w v : World} (h : w.usb = v.usb) :
    (infectus_nand_receive env fuel buf n w).map bus_view =
      (infectus_nand_receive env1 fuel buf n v).map bus_view :=
  infectus_sendcommand_view hw hr fuel _ _ _ h

theorem readflashpage_chunks_view {env env1 : Env}
    (hw : env.usb_bulk_write = env1.usb_bulk_write)
    (hr : env.usb_bulk_read = env1.usb_bulk_read) (fuel : Nat) (cfg : Config) :
    ∀ (idxs : List Nat) (flash_buf dstbuf : List Nat) (len0 : Int) (w v : World),
      w.usb = v.usb →
      (readflashpage_chunks env fuel cfg idxs flash_buf dstbuf len0 w).map bus_view =
        (readflashpage_chunks env1 fuel cfg idxs flash_buf dstbuf len0 v).map bus_view := by
  intro idxs
  induction idxs with
  | nil => intro flash_buf dstbuf len0 w v h; simp [readflashpage_chunks, bus_view, h]
  | cons i rest ih =>
    intro flash_buf dstbuf len0 w v h
    simp only [readflashpage_chunks]
    rcases view_cases (infectus_nand_receive_view hw hr fuel flash_buf cfg.subpage_size h) with
      ⟨a, b⟩ | ⟨r, fb, w1, v1, a, b, c⟩
    · rw [a, b]
    · rw [a, b]; exact ih _ _ _ _ _ c

theorem infectus_readflashpage_view {env env1 : Env}
    (hw : env.usb_bulk_write = env1.usb_bulk_write)
    (hr : env.usb_bulk_read = env1.usb_bulk_read) (fuel : Nat) (cfg : Config)
    (dstbuf : List Nat) (pageno : Nat) {w v : World} (h : w.usb = v.usb) :
    (infectus_readflashpage env fuel cfg dstbuf pageno w).map bus_view =
      (infectus_readflashpage env1 fuel cfg dstbuf pageno v).map bus_view := by
  unfold infectus_readflashpage
  simp only
  rcases view_cases (infectus_sendcommand_view hw hr fuel
      (infectus_nand_command (zeros 128) 5
        [NAND_READ_PRE, 0, 0, pageno, pageno >>> 8, pageno >>> 16]).1
      (infectus_nand_command (zeros 128) 5
        [NAND_READ_PRE, 0, 0, pageno, pageno >>> 8, pageno >>> 16]).2 128 h) with
    ⟨a, b⟩ | ⟨r, b1, w1, v1, a, b, c⟩
  · rw [a, b]
  · rw [a, b]
    simp only
    rcases view_cases (infectus_sendcommand_view hw hr fuel
        (infectus_nand_command b1 0 [NAND_READ_POST]).1
        (infectus_nand_command b1 0 [NAND_READ_POST]).2 128 c) with
      ⟨a2, b2⟩ | ⟨r2, b3, w2, v2, a2, b2, c2⟩
    · rw [a2, b2]
    · rw [a2, b2]
      simp only
      cases page_chunks cfg with
      | none => rfl
      | some chunks => exact readflashpage_chunks_view hw hr fuel cfg _ _ _ _ _ _ c2

/-! ### Page comparison -/

theorem tail_getD (l : List Nat) (i : Nat) : l.tail.getD i 0 = l.getD (i + 1) 0 := by
  cases l <;> simp

theorem memcmp_ne_zero_iff : ∀ (n : Nat) (a b : List Nat),
    memcmp a b n ≠ 0 ↔ ∃ i, i < n ∧ a.getD i 0 ≠ b.getD i 0 := by
  intro n
  induction n with
  | zero => intro a b; simp [memcmp]
  | succ n ih =>
    intro a b
    simp only [memcmp]
    by_cases h : a.getD 0 0 ≠ b.getD 0 0
    · rw [if_pos h]
      constructor
      · intro _; exact ⟨0, by omega, h⟩
      · intro _; omega
    · rw [if_neg h, ih]
      constructor
      · rintro ⟨i, hi, hne⟩
        exact ⟨i + 1, by omega, by simpa [tail_getD] using hne⟩
      · rintro ⟨i, hi, hne⟩
        cases i with
        | zero => exact absurd hne h
        | succ j => exact ⟨j, by omega, by simpa [tail_getD] using hne⟩

/-- The buffer a full file read fills holds the bytes of the file page. -/
theorem file_readflashpage_getD (cfg : Config) (fp dstbuf : List Nat) (pageno i : Nat)
    (hfull : (file_readflashpage cfg fp dstbuf pageno).1 = cfg.page_size + cfg.spare_size)
    (hi : i < cfg.page_size + cfg.spare_size) :
    (file_readflashpage cfg fp dstbuf pageno).2.getD i 0 =
      fp.getD ((pageno * (cfg.page_size + cfg.spare_size)) % 2 ^ 32 + i) 0 := by
  simp only [file_readflashpage] at hfull ⊢
  simp only [overwrite, List.getD_eq_getElem?_getD]
  rw [List.getElem?_append_left (by omega), List.getElem?_take_of_lt hi, List.getElem?_drop]

/-- The result of `flash_compare` is the `memcmp` of the file buffer with the
buffer the chip read fills, whatever the ghost log and the ECC classifier. -/
theorem flash_compare_eq (env env0 : Env) (hw : env0.usb_bulk_write = env.usb_bulk_write)
    (hr : env0.usb_bulk_read = env.usb_bulk_read) {fuel : Nat} {cfg : Config}
    (fp : List Nat) {pageno : Nat} {w v0 : World} (hv : v0.usb = w.usb) {len : Int}
    {buf2 : List Nat} {w2 : World}
    (hchip : infectus_readflashpage env0 fuel cfg (zeros PAGEBUF_SIZE) pageno v0 =
      some (len, buf2, w2)) :
    ∃ w3, flash_compare env fuel cfg fp pageno w =
      some (memcmp (file_readflashpage cfg fp (zeros PAGEBUF_SIZE) pageno).2 buf2
        (cfg.page_size + cfg.spare_size), w3) := by
  unfold flash_compare
  simp only
  have hbus : v0.usb = (if env.check_ecc_wrong
      (file_readflashpage cfg fp (zeros PAGEBUF_SIZE) pageno).2 = true then
        (w.log (Call.compare pageno)).log (Call.ecc_warning true pageno)
      else w.log (Call.compare pageno)).usb := by
    split <;> simpa [World.log] using hv
  have hview := infectus_readflashpage_view hw hr fuel cfg (zeros PAGEBUF_SIZE) pageno hbus
  rw [hchip] at hview
  rcases view_cases hview with ⟨a, -⟩ | ⟨r, b, w1, v1, a, b1, -⟩
  · simp at a
  · simp only [Option.some.injEq, Prod.mk.injEq] at a
    obtain ⟨a1, a2, -⟩ := a
    subst a1 a2
    rw [b1]
    exact ⟨_, rfl⟩

/-- C6: when the reference file delivers a full page and the chip read
returns, `flash_compare` returns, and its result is non-zero exactly when the
file page and the page the chip read delivered differ in a byte at an index
below `page_size + spare_size`; the result is the same whatever the ECC
classifier answers. (The length the chip read reports plays no part.) -/
theorem flash_compare_mismatch_iff (env : Env) (fuel : Nat) (cfg : Config) (fp : List Nat)
    (pageno : Nat) (w : World) (len : Int) (buf2 : List Nat) (w2 : World)
    (hfile : (file_readflashpage cfg fp (zeros PAGEBUF_SIZE) pageno).1 =
      cfg.page_size + cfg.spare_size)
    (hchip : infectus_readflashpage env fuel cfg (zeros PAGEBUF_SIZE) pageno w =
      some (len, buf2, w2)) :
    ∃ x : Int, (∃ w3, flash_compare env fuel cfg fp pageno w = some (x, w3)) ∧
      (x ≠ 0 ↔ ∃ i, i < cfg.page_size + cfg.spare_size ∧
        fp.getD ((pageno * (cfg.page_size + cfg.spare_size)) % 2 ^ 32 + i) 0 ≠ buf2.getD i 0) ∧
      (∀ ecc : List Nat → Bool, ∃ w4,
        flash_compare { env with check_ecc_wrong := ecc } fuel cfg fp pageno w = some (x, w4)) := by
  refine ⟨_, flash_compare_eq env env rfl rfl fp rfl hchip, ?_, ?_⟩
  · rw [memcmp_ne_zero_iff]
    constructor
    · rintro ⟨i, hi, hne⟩
      exact ⟨i, hi, by rwa [file_readflashpage_getD cfg fp _ pageno i hfile hi] at hne⟩
    · rintro ⟨i, hi, hne⟩
      exact ⟨i, hi, by rwa [file_readflashpage_getD cfg fp _ pageno i hfile hi]⟩
  · intro ecc
    exact flash_compare_eq { env with check_ecc_wrong := ecc } env rfl rfl
      fp rfl hchip

/-- Witness for C6: the chip page is `1 2 3 4`, the file page `1 2 3 9`. -/
theorem flash_compare_mismatch_iff_witness :
    ∃ (len : Int) (buf2 : List Nat) (w2 : World),
      infectus_readflashpage (env_const [0xFF, 1, 2, 3, 4]) 2 cfg_tiny (zeros PAGEBUF_SIZE) 0
        World.empty = some (len, buf2, w2) ∧
      ∃ x : Int,
        (∃ w3, flash_compare (env_const [0xFF, 1, 2, 3, 4]) 2 cfg_tiny [1, 2, 3, 9] 0
          World.empty = some (x, w3)) ∧
        (x ≠ 0 ↔ ∃ i, i < cfg_tiny.page_size + cfg_tiny.spare_size ∧
          [1, 2, 3, 9].getD ((0 * (cfg_tiny.page_size + cfg_tiny.spare_size)) % 2 ^ 32 + i) 0 ≠
            buf2.getD i 0) ∧
        (∀ ecc : List Nat → Bool, ∃ w4,
          flash_compare { env_const [0xFF, 1, 2, 3, 4] with check_ecc_wrong := ecc } 2 cfg_tiny
            [1, 2, 3, 9] 0 World.empty = some (x, w4)) := by
  have hs : (infectus_readflashpage (env_const [0xFF, 1, 2, 3, 4]) 2 cfg_tiny
      (zeros PAGEBUF_SIZE) 0 World.empty).isSome = true := by decide
  obtain ⟨⟨len, buf2, w2⟩, h⟩ := Option.isSome_iff_exists.mp hs
  exact ⟨len, buf2, w2, h, flash_compare_mismatch_iff _ _ _ _ _ _ _ _ _ (by decide) h⟩

/-! ### A responsive device -/

/-- On a device that accepts the frame in full and answers the read with a
reply that starts with the sync byte, a command takes one write and one read. -/
theorem infectus_sendcommand_ok {env : Env} (fuel : Nat) {buf : List Nat} {len : Nat}
    (maxsize : Nat) (w : World)
    (hwr : ∀ h f, env.usb_bulk_write h f = (f.length : Int))
    (hlen : (buf.take len).length = len) (hpos : 0 < len)
    (hret : 0 ≤ (env.usb_bulk_read (w.usb ++ [UsbEvent.write (buf.take len) len]) maxsize).1)
    (hsync : (overwrite buf ((env.usb_bulk_read
        (w.usb ++ [UsbEvent.write (buf.take len) len]) maxsize).2.take
      (env.usb_bulk_read (w.usb ++ [UsbEvent.write (buf.take len) len]) maxsize).1.toNat)).getD
        0 0 = 0xFF) :
    infectus_sendcommand env (fuel + 2) buf len maxsize w =
      some ((env.usb_bulk_read (w.usb ++ [UsbEvent.write (buf.take len) len]) maxsize).1,
        overwrite buf ((env.usb_bulk_read
          (w.usb ++ [UsbEvent.write (buf.take len) len]) maxsize).2.take
          (env.usb_bulk_read (w.usb ++ [UsbEvent.write (buf.take len) len]) maxsize).1.toNat),
        { usb := w.usb ++ [UsbEvent.write (buf.take len) len,
            UsbEvent.read maxsize
              (env.usb_bulk_read (w.usb ++ [UsbEvent.write (buf.take len) len]) maxsize).1
              (env.usb_bulk_read (w.usb ++ [UsbEvent.write (buf.take len) len]) maxsize).2],
          calls := w.calls ++ [Call.sendcommand (buf.take len)],
          blocks_done := w.blocks_done }) := by
  have h1 : env.usb_bulk_write w.usb (buf.take len) = (len : Int) := by
    rw [hwr, hlen]
  have hp : (0 : Int) < (len : Int) := by exact_mod_cast hpos
  have hn : ¬ ((len : Int) < 0) := by omega
  have hr : ¬ ((env.usb_bulk_read (w.usb ++ [UsbEvent.write (buf.take len) len]) maxsize).1 < 0) := by
    omega
  simp only [infectus_sendcommand, sendcommand_loop, World.log, World.bus, h1, hp, hn, hr,
    if_true, if_false, lt_self_iff_false, hsync, ne_eq, not_true_eq_false, List.append_assoc,
    List.singleton_append]

theorem overwrite_getD_head (buf l : List Nat) (a : Nat) (h : l.head? = some a) :
    (overwrite buf l).getD 0 0 = a := by
  cases l with
  | nil => simp at h
  | cons x xs =>
    simp only [List.head?_cons, Option.some.injEq] at h
    simp [overwrite, h]

theorem write_at_append (a rest p : List Nat) (off : Nat) (h : a.length = off) :
    write_at (a ++ rest) off p = a ++ p ++ rest.drop p.length := by
  subst h
  simp [write_at, List.drop_append]

/-- The bytes a full reply leaves after the sync byte. -/
theorem chunk_payload (b d : List Nat) (n : Nat) (h : n + 1 ≤ d.length) :
    ((overwrite b (d.take (n + 1))).drop 1).take n = (d.drop 1).take n := by
  cases d with
  | nil => simp at h
  | cons x xs =>
    simp only [List.length_cons] at h
    have hx : n ≤ xs.length := by omega
    simp [overwrite, List.take_append_of_le_length, hx]

/-- On a device that accepts every frame in full and answers a receive request
for `n` bytes with a full reply, the request takes one write and one read. -/
theorem infectus_nand_receive_ok {env : Env} (fuel : Nat) (fb : List Nat) (n : Nat)
    (w : World)
    (hwr : ∀ h f, env.usb_bulk_write h f = (f.length : Int))
    (hchunk : ∀ h, (env.usb_bulk_read h (n + 3)).1 = ((n + 1 : Nat) : Int) ∧
      n + 1 ≤ (env.usb_bulk_read h (n + 3)).2.length ∧
      (env.usb_bulk_read h (n + 3)).2.head? = some 0xFF) :
    ∃ (fb1 d : List Nat) (w1 : World),
      infectus_nand_receive env (fuel + 2) fb n w = some (((n + 1 : Nat) : Int), fb1, w1) ∧
      n + 1 ≤ d.length ∧ (fb1.drop 1).take n = (d.drop 1).take n ∧
      w1.usb = w.usb ++ [UsbEvent.write (recv_frame n) 8,
        UsbEvent.read (n + 3) ((n + 1 : Nat) : Int) d] ∧
      w1.calls = w.calls ++ [Call.sendcommand (recv_frame n)] ∧
      w1.blocks_done = w.blocks_done := by
  obtain ⟨c1, c2, c3⟩ := hchunk (w.usb ++ [UsbEvent.write (recv_frame n) 8])
  unfold infectus_nand_receive
  simp only
  have hf := nand_receive_frame fb n
  have hl : (recv_frame n).length = 8 := by simp [recv_frame]
  rw [infectus_sendcommand_ok fuel (n + 3) w hwr (by rw [hf, hl]) (by omega)
    (by rw [hf]; simp only [Nat.cast_ofNat]; rw [c1]; omega)
    (by
      rw [hf]; simp only [Nat.cast_ofNat]
      apply overwrite_getD_head
      rw [c1]
      cases hd : (env.usb_bulk_read (w.usb ++ [UsbEvent.write (recv_frame n) 8]) (n + 3)).2 with
      | nil => rw [hd] at c3; simp at c3
      | cons x xs => rw [hd] at c3; simpa using c3)]
  rw [hf]
  simp only [Nat.cast_ofNat]
  rw [c1]
  refine ⟨_, (env.usb_bulk_read (w.usb ++ [UsbEvent.write (recv_frame n) 8]) (n + 3)).2, _,
    rfl, c2, ?_, rfl, rfl, rfl⟩
  simp only [Int.toNat_ofNat]
  exact chunk_payload _ _ n c2

/-- On a device that accepts every frame in full and answers a strobe with a
reply that starts with the sync byte, the strobe takes one write and one read. -/
theorem strobe_ok {env : Env} (fuel : Nat) (buf : List Nat) (len : Nat) (frame : List Nat)
    (w : World)
    (hwr : ∀ h f, env.usb_bulk_write h f = (f.length : Int))
    (hstrobe : ∀ h, 0 ≤ (env.usb_bulk_read h 128).1 ∧
      ((env.usb_bulk_read h 128).2.take (env.usb_bulk_read h 128).1.toNat).head? = some 0xFF)
    (hframe : buf.take len = frame) (hlen : frame.length = len) (hpos : 0 < len) :
    ∃ (q : Int) (e b1 : List Nat) (w1 : World),
      infectus_sendcommand env (fuel + 2) buf len 128 w = some (q, b1, w1) ∧
      w1.usb = w.usb ++ [UsbEvent.write frame len, UsbEvent.read 128 q e] ∧
      w1.calls = w.calls ++ [Call.sendcommand frame] ∧
      w1.blocks_done = w.blocks_done := by
  obtain ⟨c1, c2⟩ := hstrobe (w.usb ++ [UsbEvent.write (buf.take len) len])
  rw [infectus_sendcommand_ok fuel 128 w hwr (by rw [hframe, hlen]) hpos c1
    (overwrite_getD_head _ _ _ c2)]
  rw [hframe]
  exact ⟨_, _, _, _, rfl, rfl, rfl, rfl⟩

/-- On a responsive device the chunk loop of a page read returns: every chunk
is one write of the receive request and one read of a full reply, the payloads
are stored at their offsets, and the length grows by the chunk size each time. -/
theorem readflashpage_chunks_ok {env : Env} (fuel : Nat) (cfg : Config)
    (hwr : ∀ h f, env.usb_bulk_write h f = (f.length : Int))
    (hchunk : ∀ h, (env.usb_bulk_read h (cfg.subpage_size + 3)).1 =
        ((cfg.subpage_size + 1 : Nat) : Int) ∧
      cfg.subpage_size + 1 ≤ (env.usb_bulk_read h (cfg.subpage_size + 3)).2.length ∧
      (env.usb_bulk_read h (cfg.subpage_size + 3)).2.head? = some 0xFF) :
    ∀ (idxs : List Nat) (fb dst : List Nat) (len0 : Int) (w : World),
      ∃ (ds : List (List Nat)) (w1 : World), ds.length = idxs.length ∧
        (∀ d ∈ ds, cfg.subpage_size + 1 ≤ d.length) ∧
        readflashpage_chunks env (fuel + 2) cfg idxs fb dst len0 w =
          some (len0 + ((idxs.length * cfg.subpage_size : Nat) : Int),
            (idxs.zip ds).foldl (fun acc x =>
              write_at acc (x.1 * cfg.subpage_size) ((x.2.drop 1).take cfg.subpage_size)) dst,
            w1) ∧
        w1.usb = w.usb ++ (ds.map (fun d =>
          [UsbEvent.write (recv_frame cfg.subpage_size) 8,
           UsbEvent.read (cfg.subpage_size + 3) ((cfg.subpage_size + 1 : Nat) : Int) d])).flatten ∧
        w1.calls = w.calls ++
          List.replicate idxs.length (Call.sendcommand (recv_frame cfg.subpage_size)) ∧
        w1.blocks_done = w.blocks_done := by
  intro idxs
  induction idxs with
  | nil =>
    intro fb dst len0 w
    exact ⟨[], w, rfl, by simp, by simp [readflashpage_chunks], by simp, by simp, rfl⟩
  | cons i rest ih =>
    intro fb dst len0 w
    obtain ⟨fb1, d, v, g1, g2, p1, g3, g4, g5⟩ :=
      infectus_nand_receive_ok fuel fb cfg.subpage_size w hwr hchunk
    obtain ⟨ds, w1, a1, a2, a3, a4, a5, a6⟩ := ih fb1
      (write_at dst (i * cfg.subpage_size) ((fb1.drop 1).take cfg.subpage_size))
      (len0 + (((cfg.subpage_size + 1 : Nat) : Int) - 1)) v
    refine ⟨d :: ds, w1, by simp [a1], ?_, ?_, ?_, ?_, ?_⟩
    · intro x hx
      rcases List.mem_cons.mp hx with hx | hx
      · subst hx; exact g2
      · exact a2 x hx
    · simp only [readflashpage_chunks]
      rw [g1]
      simp only
      rw [a3, p1]
      simp only [List.zip_cons_cons, List.foldl_cons, List.length_cons, Option.some.injEq,
        Prod.mk.injEq, and_true]
      push_cast
      ring
    · rw [a4, g3]; simp
    · rw [a5, g4]; simp [List.replicate_succ]
    · rw [a6, g5]

theorem three_chunks_layout (dst p1 p2 p3 : List Nat) (h1 : p1.length = 704)
    (h2 : p2.length = 704) (h3 : p3.length = 704) :
    write_at (write_at (write_at dst 0 p1) 704 p2) 1408 p3 =
      p1 ++ p2 ++ p3 ++ dst.drop 2112 := by
  have e1 : write_at dst 0 p1 = p1 ++ dst.drop 704 := by
    have := write_at_append [] dst p1 0 rfl
    simpa [h1] using this
  have e2 : write_at (p1 ++ dst.drop 704) 704 p2 = (p1 ++ p2) ++ dst.drop 1408 := by
    have := write_at_append p1 (dst.drop 704) p2 704 h1
    simpa [h2] using this
  have e3 : write_at ((p1 ++ p2) ++ dst.drop 1408) 1408 p3 = (p1 ++ p2) ++ p3 ++ dst.drop 2112 := by
    have := write_at_append (p1 ++ p2) (dst.drop 1408) p3 1408 (by simp [h1, h2])
    simpa [h3] using this
  rw [e1, e2, e3]

/-- C7: with `page_size = 2048`, `spare_size = 64`, `subpage_size = 704`, on a
device that accepts every frame in full, answers every strobe with a reply that
starts with the sync byte and answers every receive request (a read of at most
707 bytes) with a full reply of 705 bytes that starts with the sync byte,
`infectus_readflashpage` returns 2112 (a budget of two transfers per command
is enough). After the two strobes the bus carries exactly three receive
requests for 704 bytes, each answered in full, and the destination buffer
holds the three payloads (the replies without their sync byte) at offsets 0,
704 and 1408, the rest of the buffer being as before. -/
theorem infectus_readflashpage_three_chunks (env : Env) (fuel : Nat) (cfg : Config)
    (dstbuf : List Nat) (pageno : Nat) (w : World)
    (hps : cfg.page_size = 2048) (hss : cfg.spare_size = 64) (hsub : cfg.subpage_size = 704)
    (hwr : ∀ h f, env.usb_bulk_write h f = (f.length : Int))
    (hstrobe : ∀ h, 0 ≤ (env.usb_bulk_read h 128).1 ∧
      ((env.usb_bulk_read h 128).2.take (env.usb_bulk_read h 128).1.toNat).head? = some 0xFF)
    (hchunk : ∀ h, (env.usb_bulk_read h 707).1 = 705 ∧
      705 ≤ (env.usb_bulk_read h 707).2.length ∧
      (env.usb_bulk_read h 707).2.head? = some 0xFF) :
    ∃ (q1 q2 : Int) (e1 e2 d1 d2 d3 : List Nat) (w1 : World),
      infectus_readflashpage env (fuel + 2) cfg dstbuf pageno w =
        some (2112,
          (d1.drop 1).take 704 ++ (d2.drop 1).take 704 ++ (d3.drop 1).take 704 ++
            dstbuf.drop 2112, w1) ∧
      705 ≤ d1.length ∧ 705 ≤ d2.length ∧ 705 ≤ d3.length ∧
      w1.usb = w.usb ++
        [UsbEvent.write
            (command_frame [NAND_READ_PRE, 0, 0, pageno, pageno >>> 8, pageno >>> 16]) 14,
          UsbEvent.read 128 q1 e1,
          UsbEvent.write (command_frame [NAND_READ_POST]) 9,
          UsbEvent.read 128 q2 e2,
          UsbEvent.write (recv_frame 704) 8, UsbEvent.read 707 705 d1,
          UsbEvent.write (recv_frame 704) 8, UsbEvent.read 707 705 d2,
          UsbEvent.write (recv_frame 704) 8, UsbEvent.read 707 705 d3] ∧
      w1.calls = w.calls ++
        [Call.sendcommand
            (command_frame [NAND_READ_PRE, 0, 0, pageno, pageno >>> 8, pageno >>> 16]),
          Call.sendcommand (command_frame [NAND_READ_POST]),
          Call.sendcommand (recv_frame 704), Call.sendcommand (recv_frame 704),
          Call.sendcommand (recv_frame 704)] := by
  have hchunk1 : ∀ h, (env.usb_bulk_read h (cfg.subpage_size + 3)).1 =
        ((cfg.subpage_size + 1 : Nat) : Int) ∧
      cfg.subpage_size + 1 ≤ (env.usb_bulk_read h (cfg.subpage_size + 3)).2.length ∧
      (env.usb_bulk_read h (cfg.subpage_size + 3)).2.head? = some 0xFF := by
    intro h
    rw [hsub]
    simpa using hchunk h
  obtain ⟨q1, e1, b1, v1, s1, u1, c1, -⟩ := strobe_ok fuel _ _ _ w hwr hstrobe
    (nand_command_frame5 (zeros 128) NAND_READ_PRE 0 0 pageno (pageno >>> 8) (pageno >>> 16))
    (by simp [command_frame, infectus_nand_command]) (by simp [infectus_nand_command])
  obtain ⟨q2, e2, b2, v2, s2, u2, c2, -⟩ := strobe_ok fuel _ _ _ v1 hwr hstrobe
    (nand_command_frame0 b1 NAND_READ_POST)
    (by simp [command_frame, infectus_nand_command]) (by simp [infectus_nand_command])
  obtain ⟨ds, w1, a1, a2, a3, a4, a5, -⟩ := readflashpage_chunks_ok fuel cfg hwr hchunk1
    (List.range 3) (zeros PAGEBUF_SIZE) dstbuf 0 v2
  have hr3 : List.range 3 = [0, 1, 2] := by decide
  rw [hr3] at a1 a3 a5
  obtain ⟨d1, d2, d3, rfl⟩ := List.length_eq_three.mp a1
  have l1 := a2 d1 (by simp)
  have l2 := a2 d2 (by simp)
  have l3 := a2 d3 (by simp)
  rw [hsub] at l1 l2 l3 a3 a4 a5
  have hc : page_chunks cfg = some 3 := by simp [page_chunks, hps, hss, hsub]
  refine ⟨q1, q2, e1, e2, d1, d2, d3, w1, ?_, l1, l2, l3, ?_, ?_⟩
  · unfold infectus_readflashpage
    simp only
    rw [s1]
    simp only
    rw [s2]
    simp only
    rw [hc]
    simp only
    rw [hr3, a3]
    simp only [List.zip_cons_cons, List.zip_nil_right, List.foldl_cons, List.foldl_nil,
      List.length_cons, List.length_nil]
    rw [show (0 * 704 = 0) from rfl, show (1 * 704 = 704) from rfl,
      show (2 * 704 = 1408) from rfl,
      three_chunks_layout dstbuf _ _ _ (by simp; omega) (by simp; omega) (by simp; omega)]
    rfl
  · rw [a4, u2, u1]
    simp [infectus_nand_command]
  · rw [a5, c2, c1]
    simp

set_option maxRecDepth 100000 in
/-- Witness for C7: every chunk of the chip is 704 bytes `0xAB`. -/
theorem infectus_readflashpage_three_chunks_witness :
    ∃ (q1 q2 : Int) (e1 e2 d1 d2 d3 : List Nat) (w1 : World),
      infectus_readflashpage (env_page (List.replicate 704 0xAB)) (0 + 2) Config.initial
          (zeros PAGEBUF_SIZE) 5 World.empty =
        some (2112,
          (d1.drop 1).take 704 ++ (d2.drop 1).take 704 ++ (d3.drop 1).take 704 ++
            (zeros PAGEBUF_SIZE).drop 2112, w1) ∧
      705 ≤ d1.length ∧ 705 ≤ d2.length ∧ 705 ≤ d3.length ∧
      w1.usb = World.empty.usb ++
        [UsbEvent.write (command_frame [NAND_READ_PRE, 0, 0, 5, 5 >>> 8, 5 >>> 16]) 14,
          UsbEvent.read 128 q1 e1,
          UsbEvent.write (command_frame [NAND_READ_POST]) 9,
          UsbEvent.read 128 q2 e2,
          UsbEvent.write (recv_frame 704) 8, UsbEvent.read 707 705 d1,
          UsbEvent.write (recv_frame 704) 8, UsbEvent.read 707 705 d2,
          UsbEvent.write (recv_frame 704) 8, UsbEvent.read 707 705 d3] ∧
      w1.calls = World.empty.calls ++
        [Call.sendcommand (command_frame [NAND_READ_PRE, 0, 0, 5, 5 >>> 8, 5 >>> 16]),
          Call.sendcommand (command_frame [NAND_READ_POST]),
          Call.sendcommand (recv_frame 704), Call.sendcommand (recv_frame 704),
          Call.sendcommand (recv_frame 704)] :=
  infectus_readflashpage_three_chunks (env_page (List.replicate 704 0xAB)) 0 Config.initial
    (zeros PAGEBUF_SIZE) 5 World.empty rfl rfl rfl (fun _ _ => rfl)
    (fun _ => ⟨(by decide : (0 : Int) ≤ 1), rfl⟩)
    (fun _ => ⟨(by decide : (((List.replicate 704 0xAB).length + 1 : Nat) : Int) = 705),
      (by decide : 705 ≤ (0xFF :: List.replicate 704 0xAB).length), rfl⟩)

/-! ### Block programming -/

theorem passive_read_pre (pageno : Nat) :
    Call.is_passive (Call.sendcommand
      (command_frame [NAND_READ_PRE, 0, 0, pageno, pageno >>> 8, pageno >>> 16])) = true := by
  simp [Call.is_passive, command_frame, INFECTUS_NAND_CMD, NAND_READ_PRE]

theorem passive_read_post :
    Call.is_passive (Call.sendcommand (command_frame [NAND_READ_POST])) = true := by
  simp [Call.is_passive, command_frame, INFECTUS_NAND_CMD, NAND_READ_POST]

theorem passive_recv (n : Nat) : Call.is_passive (Call.sendcommand (recv_frame n)) = true := by
  simp [Call.is_passive, recv_frame, INFECTUS_NAND_CMD, INFECTUS_NAND_RECV]

/-- A page read logs only its own read commands. -/
theorem infectus_readflashpage_grows {env : Env} {fuel : Nat} {cfg : Config}
    {dstbuf : List Nat} {pageno : Nat} {w : World} {len : Int} {dst1 : List Nat} {w1 : World}
    (h : infectus_readflashpage env fuel cfg dstbuf pageno w = some (len, dst1, w1)) :
    Grows Call.is_passive w w1 := by
  obtain ⟨chunks, strobes, segs, -, -, -, h4, -, h6, h7⟩ := infectus_readflashpage_effect h
  refine ⟨[Call.sendcommand
      (command_frame [NAND_READ_PRE, 0, 0, pageno, pageno >>> 8, pageno >>> 16]),
      Call.sendcommand (command_frame [NAND_READ_POST])] ++
      List.replicate chunks (Call.sendcommand (recv_frame cfg.subpage_size)),
    ⟨by rw [h6, List.append_assoc], h7, strobes ++ segs.flatten,
      by rw [h4, List.append_assoc]⟩, ?_⟩
  intro c hc
  simp only [List.mem_append, List.mem_cons, List.mem_singleton, List.not_mem_nil, or_false,
    List.mem_replicate] at hc
  rcases hc with (hc | hc) | ⟨-, hc⟩
  · subst hc; exact passive_read_pre pageno
  · subst hc; exact passive_read_post
  · subst hc; exact passive_recv _

theorem Grows.log {P : Call → Bool} {w w1 : World} (c : Call) (hc : P c = true) (h : w1 = w) :
    Grows P w (w1.log c) := by
  subst h
  exact ⟨[c], Extends.ext_log _ c, by simpa using hc⟩

/-- A page comparison logs its entry, then only ECC warnings and the read
commands of the page read. -/
theorem flash_compare_grows {env : Env} {fuel : Nat} {cfg : Config} {fp : List Nat}
    {pageno : Nat} {w : World} {x : Int} {w1 : World}
    (h : flash_compare env fuel cfg fp pageno w = some (x, w1)) :
    Grows Call.is_passive (w.log (Call.compare pageno)) w1 := by
  unfold flash_compare at h
  simp only at h
  split at h
  · simp at h
  · rename_i r b2 v2 h2
    simp only [Option.some.injEq, Prod.mk.injEq] at h
    obtain ⟨-, h3⟩ := h
    have g1 : Grows Call.is_passive (w.log (Call.compare pageno))
        (if env.check_ecc_wrong (file_readflashpage cfg fp (zeros PAGEBUF_SIZE) pageno).2 = true
          then (w.log (Call.compare pageno)).log (Call.ecc_warning true pageno)
          else w.log (Call.compare pageno)) := by
      split
      · exact Grows.log _ rfl rfl
      · exact Grows.refl _ _
    have g2 := g1.trans (infectus_readflashpage_grows h2)
    subst h3
    split
    · exact g2.trans (Grows.log _ rfl rfl)
    · exact g2

theorem word32_eq_iff (buf : List Nat) (i : Nat)
    (hb : ∀ k, k < 4 → buf.getD (4 * i + k) 0 < 256) :
    word32 buf i = 0xFFFFFFFF ↔ ∀ k, k < 4 → buf.getD (4 * i + k) 0 = 0xFF := by
  have h0 := hb 0 (by omega)
  have h1 := hb 1 (by omega)
  have h2 := hb 2 (by omega)
  have h3 := hb 3 (by omega)
  simp only [Nat.add_zero] at h0
  unfold word32
  constructor
  · intro h k hk
    have hk4 : k = 0 ∨ k = 1 ∨ k = 2 ∨ k = 3 := by omega
    rcases hk4 with rfl | rfl | rfl | rfl
    · simp only [Nat.add_zero]; omega
    · omega
    · omega
    · omega
  · intro h
    have g0 := h 0 (by omega)
    have g1 := h 1 (by omega)
    have g2 := h 2 (by omega)
    have g3 := h 3 (by omega)
    simp only [Nat.add_zero] at g0
    omega

theorem flash_isFF_loop_eq (buf : List Nat) : ∀ idxs : List Nat,
    flash_isFF_loop buf idxs = if (∀ i ∈ idxs, word32 buf i = 0xFFFFFFFF) then 1 else 0 := by
  intro idxs
  induction idxs with
  | nil => simp [flash_isFF_loop]
  | cons i rest ih =>
    simp only [flash_isFF_loop, ih, List.mem_cons, forall_eq_or_imp]
    by_cases h : word32 buf i = 0xFFFFFFFF
    · simp [h]
    · simp [h]

/-- `flash_isFF` on a length that is a multiple of 4, over bytes: the result
is non-zero exactly when all the bytes are `0xFF`. -/
theorem flash_isFF_ne_zero_iff (buf : List Nat) (n : Nat) (h4 : n % 4 = 0)
    (hb : ∀ j, j < n → buf.getD j 0 < 256) :
    flash_isFF buf (n : Int) ≠ 0 ↔ ∀ j, j < n → buf.getD j 0 = 0xFF := by
  have hdiv : (Int.tdiv (n : Int) 4).toNat = n / 4 := by
    have : Int.tdiv (n : Int) 4 = ((n / 4 : Nat) : Int) := rfl
    rw [this]; exact Int.toNat_ofNat _
  unfold flash_isFF
  rw [hdiv, flash_isFF_loop_eq]
  have key : (∀ i ∈ List.range (n / 4), word32 buf i = 0xFFFFFFFF) ↔
      ∀ j, j < n → buf.getD j 0 = 0xFF := by
    constructor
    · intro h j hj
      have hi : j / 4 ∈ List.range (n / 4) := by
        rw [List.mem_range]; omega
      have hw := (word32_eq_iff buf (j / 4) (fun k hk => hb _ (by omega))).mp (h _ hi)
      have := hw (j % 4) (by omega)
      rwa [Nat.div_add_mod] at this
    · intro h i hi
      rw [List.mem_range] at hi
      exact (word32_eq_iff buf i (fun k hk => hb _ (by omega))).mpr
        (fun k hk => h _ (by omega))
  by_cases c : ∀ i ∈ List.range (n / 4), word32 buf i = 0xFFFFFFFF
  · rw [if_pos c]
    simp only [ne_eq, one_ne_zero, not_false_eq_true, true_iff]
    exact key.mp c
  · rw [if_neg c]
    simp only [ne_eq, not_true_eq_false, false_iff]
    exact fun h => c (key.mpr h)

theorem all_FF_iff (l : List Nat) : all_FF l = true ↔ ∀ j, j < l.length → l.getD j 0 = 0xFF := by
  unfold all_FF
  rw [List.all_eq_true]
  simp only [beq_iff_eq]
  rw [List.forall_mem_iff_getElem]
  constructor
  · intro h j hj
    rw [List.getD_eq_getElem _ _ hj]
    exact h j hj
  · intro h j hj
    rw [← List.getD_eq_getElem l 0 hj]
    exact h j hj

theorem overwrite_getD (dst src : List Nat) (j : Nat) (hj : j < src.length) :
    (overwrite dst src).getD j 0 = src.getD j 0 := by
  simp only [overwrite, List.getD_eq_getElem?_getD]
  rw [List.getElem?_append_left hj]

theorem overwrite_take (dst src : List Nat) : (overwrite dst src).take src.length = src := by
  simp [overwrite]

/-- On a full page of bytes whose length is a multiple of 4, the blank test of
the programming loop is exact. -/
theorem flash_isFF_file_page (cfg : Config) (fp buf : List Nat) (p : Nat)
    (hbytes : ∀ b ∈ fp, b < 256) (h4 : (cfg.page_size + cfg.spare_size) % 4 = 0)
    (hfull : (file_page cfg fp p).length = cfg.page_size + cfg.spare_size) :
    flash_isFF (file_readflashpage cfg fp buf p).2
        ((cfg.page_size + cfg.spare_size : Nat) : Int) ≠ 0 ↔
      all_FF (file_page cfg fp p) = true := by
  have hrd : (file_readflashpage cfg fp buf p).2 = overwrite buf (file_page cfg fp p) := rfl
  rw [hrd, all_FF_iff, hfull]
  have hget : ∀ j, j < cfg.page_size + cfg.spare_size →
      (overwrite buf (file_page cfg fp p)).getD j 0 = (file_page cfg fp p).getD j 0 :=
    fun j hj => overwrite_getD _ _ j (by omega)
  rw [flash_isFF_ne_zero_iff _ _ h4]
  · constructor
    · intro h j hj; rw [← hget j hj]; exact h j hj
    · intro h j hj; rw [hget j hj]; exact h j hj
  · intro j hj
    rw [hget j hj, List.getD_eq_getElem _ _ (by omega : j < (file_page cfg fp p).length)]
    apply hbytes
    have hm : (file_page cfg fp p)[j] ∈ file_page cfg fp p := List.getElem_mem _
    unfold file_page at hm
    exact List.mem_of_mem_drop (List.mem_of_mem_take hm)

theorem Logged.logged_refl (Q : Call → Bool) (w : World) : Logged Q w w [] :=
  ⟨[], Extends.ext_refl w, rfl⟩

theorem Logged.logged_trans {Q : Call → Bool} {w w1 w2 : World} {l1 l2 : List Call}
    (h1 : Logged Q w w1 l1) (h2 : Logged Q w1 w2 l2) : Logged Q w w2 (l1 ++ l2) := by
  obtain ⟨cs, e1, p1⟩ := h1
  obtain ⟨ds, e2, p2⟩ := h2
  exact ⟨cs ++ ds, e1.ext_trans e2, by rw [List.filter_append, p1, p2]⟩

theorem Logged.log_pos {Q : Call → Bool} (w : World) (c : Call) (hc : Q c = true) :
    Logged Q w (w.log c) [c] :=
  ⟨[c], Extends.ext_log w c, by simp [hc]⟩

theorem Grows.logged {P Q : Call → Bool} {w w1 : World}
    (hPQ : ∀ c, P c = true → Q c = false) (h : Grows P w w1) : Logged Q w w1 [] := by
  obtain ⟨cs, e1, p1⟩ := h
  refine ⟨cs, e1, ?_⟩
  rw [List.filter_eq_nil_iff]
  intro c hc
  rw [hPQ c (p1 c hc)]
  simp

theorem sendcommand_not_program (c : Call) (h : c.is_sendcommand = true) :
    c.is_program = false := by
  cases c <;> simp_all [Call.is_sendcommand, Call.is_program]

theorem passive_is_read (c : Call) (h : c.is_passive = true) : c.is_read = true := by
  simp [Call.is_read, h]

theorem read_is_quiet (c : Call) (h : c.is_read = true) : c.is_quiet = true := by
  simp [Call.is_quiet, h]

theorem read_not_program (c : Call) (h : c.is_read = true) : c.is_program = false := by
  cases c <;> simp_all [Call.is_read, Call.is_passive, Call.is_compare, Call.is_program]

/-- A page comparison logs only entries of a comparison. -/
theorem flash_compare_reads {env : Env} {fuel : Nat} {cfg : Config} {fp : List Nat}
    {pageno : Nat} {w : World} {x : Int} {w1 : World}
    (h : flash_compare env fuel cfg fp pageno w = some (x, w1)) :
    Grows Call.is_read w w1 :=
  (Grows.log (Call.compare pageno) rfl rfl).trans
    ((flash_compare_grows h).mono passive_is_read)

/-- The scan loop logs only entries of comparisons and counts at most one
miscompare. -/
theorem program_scan_reads (env : Env) (fuel : Nat) (cfg : Config) (fp : List Nat)
    (blockno : Nat) :
    ∀ (idxs : List Nat) (w : World) (m : Nat) (w1 : World),
      program_scan env fuel cfg fp blockno idxs w = some (m, w1) →
      Grows Call.is_read w w1 ∧ (m = 0 ∨ m = 1) := by
  intro idxs
  induction idxs with
  | nil =>
    intro w m w1 h
    simp only [program_scan, Option.some.injEq, Prod.mk.injEq] at h
    obtain ⟨h1, h2⟩ := h
    subst h1 h2
    exact ⟨Grows.refl _ _, Or.inl rfl⟩
  | cons i rest ih =>
    intro w m w1 h
    simp only [program_scan] at h
    split at h
    · simp at h
    · rename_i x v hc
      have g := flash_compare_reads hc
      split at h
      · simp only [Option.some.injEq, Prod.mk.injEq] at h
        obtain ⟨h1, h2⟩ := h
        subst h1 h2
        exact ⟨g, Or.inr rfl⟩
      · obtain ⟨g2, hm⟩ := ih _ _ _ h
        exact ⟨g.trans g2, hm⟩

/-- In test mode the programming loop logs comparisons and the bare entries of
page writes. -/
theorem program_pages_quiet (env : Env) (fuel : Nat) (cfg : Config) (fp : List Nat)
    (blockno : Nat) (htest : cfg.test_mode = true) :
    ∀ (idxs : List Nat) (buf : List Nat) (w : World) (buf1 : List Nat) (w1 : World),
      program_pages env fuel cfg fp blockno idxs buf w = some (buf1, w1) →
      Grows Call.is_quiet w w1 := by
  intro idxs
  induction idxs with
  | nil =>
    intro buf w buf1 w1 h
    simp only [program_pages, Option.some.injEq, Prod.mk.injEq] at h
    obtain ⟨-, h2⟩ := h
    subst h2
    exact Grows.refl _ _
  | cons i rest ih =>
    intro buf w buf1 w1 h
    simp only [program_pages] at h
    split at h
    · split at h
      · exact ih _ _ _ _ h
      · split at h
        · simp at h
        · rename_i r b1 v1 hw
          have gw : Grows Call.is_quiet w v1 := by
            unfold infectus_writeflashpage at hw
            simp only [htest, if_true, Option.some.injEq, Prod.mk.injEq] at hw
            obtain ⟨-, -, h3⟩ := hw
            subst h3
            exact Grows.log _ rfl rfl
          split at h
          · split at h
            · simp at h
            · rename_i x v2 hc
              exact (gw.trans ((flash_compare_reads hc).mono read_is_quiet)).trans
                (ih _ _ _ _ h)
          · exact gw.trans (ih _ _ _ _ h)
    · exact ih _ _ _ _ h

/-- In test mode a whole block programming logs only quiet entries. -/
theorem flash_program_block_quiet {env : Env} {fuel : Nat} {cfg : Config} {fp : List Nat}
    {blockno : Nat} {w : World} {r : Int} {w1 : World} (htest : cfg.test_mode = true)
    (h : flash_program_block env fuel cfg fp blockno w = some (r, w1)) :
    ∃ cs, w1.calls = w.calls ++ cs ∧ ∀ c ∈ cs, c.is_quiet = true := by
  unfold flash_program_block at h
  simp only at h
  split at h
  · simp at h
  · rename_i m v1 hs
    have g1 := ((program_scan_reads env fuel cfg fp blockno _ _ _ _ hs).1).mono read_is_quiet
    split at h
    · simp at h
    · rename_i v4 ha
      simp only [Option.some.injEq, Prod.mk.injEq] at h
      obtain ⟨-, h2⟩ := h
      have g4 : Grows Call.is_quiet w v4 := by
        split at ha
        · split at ha
          · simp at ha
          · rename_i r2 v2 he
            split at ha
            · simp at ha
            · rename_i b3 v3 hp
              simp only [Option.some.injEq] at ha
              subst ha
              have ge : Grows Call.is_quiet v1 v2 := by
                unfold infectus_eraseblock at he
                simp only [htest, if_true, Option.some.injEq, Prod.mk.injEq] at he
                obtain ⟨-, h3⟩ := he
                subst h3
                exact Grows.log _ rfl rfl
              exact (g1.trans ge).trans (program_pages_quiet env fuel cfg fp blockno htest _ _ _ _ _ hp)
        · simp only [Option.some.injEq] at ha
          subst ha
          exact g1
      obtain ⟨cs, ⟨e1, -, -⟩, p1⟩ := g4
      subst h2
      exact ⟨cs, e1, p1⟩

/-- A quiet transport command carries no erase or write opcode and no data. -/
theorem quiet_frame (frame : List Nat) (h : Call.is_quiet (Call.sendcommand frame) = true) :
    frame.getD 1 0 ≠ INFECTUS_NAND_SEND ∧ frame.getD 8 0 ≠ NAND_ERASE_PRE ∧
      frame.getD 8 0 ≠ NAND_ERASE_POST ∧ frame.getD 8 0 ≠ NAND_WRITE_PRE ∧
      frame.getD 8 0 ≠ NAND_WRITE_POST := by
  simp only [Call.is_quiet, Call.is_read, Call.is_passive, Call.is_compare, Call.is_program,
    Bool.or_false, decide_eq_true_eq] at h
  obtain ⟨-, h2⟩ := h
  rcases h2 with ⟨hl, h1⟩ | ⟨h1, h8⟩
  · have h8 : frame.getD 8 0 = 0 := by
      rw [List.getD_eq_getElem?_getD, List.getElem?_eq_none (by omega)]
      rfl
    rw [h1, h8]
    simp [INFECTUS_NAND_SEND, INFECTUS_NAND_RECV, NAND_ERASE_PRE, NAND_ERASE_POST,
      NAND_WRITE_PRE, NAND_WRITE_POST]
  · rcases h8 with h8 | h8 <;> rw [h1, h8] <;>
      simp [INFECTUS_NAND_SEND, NAND_READ_PRE, NAND_READ_POST, NAND_ERASE_PRE, NAND_ERASE_POST,
        NAND_WRITE_PRE, NAND_WRITE_POST]

/-- C8: in test mode, for every block number, page number and page buffer,
`infectus_eraseblock` and `infectus_writeflashpage` return 0 at once: the bus
history is unchanged, nothing but their own entry is added to the log (no
command is handed to the transport) and the page buffer is returned as it was.
Consequently every command `flash_program_block` hands to the transport in
test mode is a read command: none is a data frame and none carries an erase or
write opcode. -/
theorem test_mode_sends_nothing (env : Env) (fuel : Nat) (cfg : Config)
    (htest : cfg.test_mode = true) :
    (∀ blockno w, ∃ w1, infectus_eraseblock env fuel cfg blockno w = some (0, w1) ∧
      w1.usb = w.usb ∧ w1.calls = w.calls ++ [Call.eraseblock blockno] ∧
      w1.blocks_done = w.blocks_done) ∧
    (∀ dstbuf pageno w, ∃ w1,
      infectus_writeflashpage env fuel cfg dstbuf pageno w = some (0, dstbuf, w1) ∧
      w1.usb = w.usb ∧
      w1.calls = w.calls ++
        [Call.writeflashpage pageno (dstbuf.take (cfg.page_size + cfg.spare_size))] ∧
      w1.blocks_done = w.blocks_done) ∧
    (∀ fp blockno w r w1, flash_program_block env fuel cfg fp blockno w = some (r, w1) →
      ∃ cs, w1.calls = w.calls ++ cs ∧ (∀ c ∈ cs, c.is_quiet = true) ∧
        ∀ frame, Call.sendcommand frame ∈ cs →
          frame.getD 1 0 ≠ INFECTUS_NAND_SEND ∧ frame.getD 8 0 ≠ NAND_ERASE_PRE ∧
          frame.getD 8 0 ≠ NAND_ERASE_POST ∧ frame.getD 8 0 ≠ NAND_WRITE_PRE ∧
          frame.getD 8 0 ≠ NAND_WRITE_POST) := by
  refine ⟨?_, ?_, ?_⟩
  · intro blockno w
    exact ⟨w.log (Call.eraseblock blockno), by simp [infectus_eraseblock, htest], rfl, rfl, rfl⟩
  · intro dstbuf pageno w
    exact ⟨w.log (Call.writeflashpage pageno (dstbuf.take (cfg.page_size + cfg.spare_size))),
      by simp [infectus_writeflashpage, htest], rfl, rfl, rfl⟩
  · intro fp blockno w r w1 h
    obtain ⟨cs, h1, h2⟩ := flash_program_block_quiet htest h
    exact ⟨cs, h1, h2, fun frame hf => quiet_frame frame (h2 _ hf)⟩

set_option maxRecDepth 100000 in
/-- Witness for C8: the small geometry in test mode, a chip whose pages are
`1 2 3 4` and a file whose first page differs. -/
theorem test_mode_sends_nothing_witness :
    (∃ w1, infectus_eraseblock (env_const [0xFF, 1, 2, 3, 4]) 2 cfg_tiny_test 7 World.empty =
        some (0, w1) ∧ w1.usb = World.empty.usb ∧
      w1.calls = World.empty.calls ++ [Call.eraseblock 7] ∧
      w1.blocks_done = World.empty.blocks_done) ∧
    ∃ (r : Int) (w1 : World),
      flash_program_block (env_const [0xFF, 1, 2, 3, 4]) 2 cfg_tiny_test
        [1, 2, 3, 9, 1, 2, 3, 4] 0 World.empty = some (r, w1) ∧
      ∃ cs, w1.calls = World.empty.calls ++ cs ∧ (∀ c ∈ cs, c.is_quiet = true) ∧
        ∀ frame, Call.sendcommand frame ∈ cs →
          frame.getD 1 0 ≠ INFECTUS_NAND_SEND ∧ frame.getD 8 0 ≠ NAND_ERASE_PRE ∧
          frame.getD 8 0 ≠ NAND_ERASE_POST ∧ frame.getD 8 0 ≠ NAND_WRITE_PRE ∧
          frame.getD 8 0 ≠ NAND_WRITE_POST := by
  have hs : (flash_program_block (env_const [0xFF, 1, 2, 3, 4]) 2 cfg_tiny_test
      [1, 2, 3, 9, 1, 2, 3, 4] 0 World.empty).isSome = true := by decide
  obtain ⟨⟨r, w1⟩, h⟩ := Option.isSome_iff_exists.mp hs
  exact ⟨(test_mode_sends_nothing (env_const [0xFF, 1, 2, 3, 4]) 2 cfg_tiny_test rfl).1 7
      World.empty,
    r, w1, h,
    (test_mode_sends_nothing (env_const [0xFF, 1, 2, 3, 4]) 2 cfg_tiny_test rfl).2.2
      _ _ _ _ _ h⟩

theorem for_indices_all (n : Nat) : for_indices 0 1 n = List.range n := by
  unfold for_indices
  rw [List.filter_eq_self]
  intro i _
  simp [Nat.mod_one]

theorem for_indices_lt {start step bound i : Nat} (h : i ∈ for_indices start step bound) :
    i < bound := by
  unfold for_indices at h
  exact List.mem_range.mp (List.mem_filter.mp h).1

/-- The programming loop writes exactly the pages that are not blank, in the
order of the loop, whatever the transfers and the verifications return. -/
theorem program_pages_writes (env : Env) (fuel : Nat) (cfg : Config) (fp : List Nat)
    (blockno : Nat) (hbytes : ∀ b ∈ fp, b < 256)
    (h4 : (cfg.page_size + cfg.spare_size) % 4 = 0) :
    ∀ (idxs : List Nat) (buf : List Nat) (w : World) (buf1 : List Nat) (w1 : World),
      (∀ i ∈ idxs, (file_page cfg fp (block_page cfg blockno i)).length =
        cfg.page_size + cfg.spare_size) →
      program_pages env fuel cfg fp blockno idxs buf w = some (buf1, w1) →
      Logged Call.is_program w w1
        ((idxs.filter (fun i => !all_FF (file_page cfg fp (block_page cfg blockno i)))).map
          (fun i => Call.writeflashpage (block_page cfg blockno i)
            (file_page cfg fp (block_page cfg blockno i)))) := by
  intro idxs
  induction idxs with
  | nil =>
    intro buf w buf1 w1 _ h
    simp only [program_pages, Option.some.injEq, Prod.mk.injEq] at h
    obtain ⟨-, h2⟩ := h
    subst h2
    exact Logged.logged_refl _ _
  | cons i rest ih =>
    intro buf w buf1 w1 hfull h
    have hlen := hfull i (List.mem_cons_self _ _)
    have hrest : ∀ j ∈ rest, (file_page cfg fp (block_page cfg blockno j)).length =
        cfg.page_size + cfg.spare_size := fun j hj => hfull j (List.mem_cons_of_mem _ hj)
    have hblank := flash_isFF_file_page cfg fp buf (block_page cfg blockno i) hbytes h4 hlen
    have htake : (file_readflashpage cfg fp buf (block_page cfg blockno i)).2.take
        (cfg.page_size + cfg.spare_size) = file_page cfg fp (block_page cfg blockno i) := by
      rw [← hlen]
      exact overwrite_take _ _
    simp only [program_pages] at h
    have hp : (blockno * cfg.pages_per_block + i) % 2 ^ 32 = block_page cfg blockno i := rfl
    rw [hp] at h
    split at h
    · split at h
      · rename_i hff
        have hall := hblank.mp hff
        rw [List.filter_cons_of_neg (by simp [hall])]
        exact ih _ _ _ _ hrest h
      · rename_i hff
        have hall : all_FF (file_page cfg fp (block_page cfg blockno i)) = false := by
          cases hc : all_FF (file_page cfg fp (block_page cfg blockno i)) with
          | false => rfl
          | true => exact absurd (hblank.mpr hc) hff
        rw [List.filter_cons_of_pos (by simp [hall]), List.map_cons]
        split at h
        · simp at h
        · rename_i r b1 v1 hw
          have gw := infectus_writeflashpage_grows hw
          rw [htake] at gw
          have l1 : Logged Call.is_program w v1
              ([Call.writeflashpage (block_page cfg blockno i)
                (file_page cfg fp (block_page cfg blockno i))] ++ []) :=
            (Logged.log_pos w _ rfl).logged_trans (gw.logged sendcommand_not_program)
          split at h
          · split at h
            · simp at h
            · rename_i x v2 hc
              have l2 := l1.logged_trans ((flash_compare_reads hc).logged read_not_program)
              have l3 := l2.logged_trans (ih _ _ _ _ hrest h)
              simpa using l3
          · have l3 := l1.logged_trans (ih _ _ _ _ hrest h)
            simpa using l3
    · rename_i hne
      exact absurd hlen hne

/-- C4: for every block and every reference file of bytes whose pages of the
block are read in full, with `page_size + spare_size` a multiple of 4: when the
scan phase has found a mismatch and `flash_program_block` returns, the erase
and page-write operations it has entered are, in order, one erase of the block
followed by one page write for every page of the block, in ascending order,
whose reference content is not entirely `0xFF`, each with the reference page
as its data, and for no other page. This holds whatever the verifications
after the writes return, and in test mode as well as with test mode off. -/
theorem flash_program_block_writes_nonblank (env : Env) (fuel : Nat) (cfg : Config)
    (fp : List Nat) (blockno : Nat) (w : World) (m : Nat) (v : World) (r : Int) (w1 : World)
    (hbytes : ∀ b ∈ fp, b < 256)
    (h4 : (cfg.page_size + cfg.spare_size) % 4 = 0)
    (hfull : ∀ i, i < cfg.pages_per_block →
      (file_page cfg fp (block_page cfg blockno i)).length = cfg.page_size + cfg.spare_size)
    (hscan : program_scan env fuel cfg fp blockno
      (for_indices (if cfg.run_fast then 2 else 0) (if cfg.run_fast then 4 else 1)
        cfg.pages_per_block) w = some (m, v))
    (hm : 0 < m)
    (hrun : flash_program_block env fuel cfg fp blockno w = some (r, w1)) :
    ∃ cs, w1.calls = w.calls ++ cs ∧
      cs.filter Call.is_program =
        Call.eraseblock blockno ::
          ((List.range cfg.pages_per_block).filter
            (fun i => !all_FF (file_page cfg fp (block_page cfg blockno i)))).map
            (fun i => Call.writeflashpage (block_page cfg blockno i)
              (file_page cfg fp (block_page cfg blockno i))) := by
  have l0 := ((program_scan_reads env fuel cfg fp blockno _ _ _ _ hscan).1).logged
    read_not_program
  unfold flash_program_block at hrun
  simp only at hrun
  rw [hscan] at hrun
  simp only [gt_iff_lt, hm, if_true] at hrun
  split at hrun
  · simp at hrun
  · rename_i v4 ha
    simp only [Option.some.injEq, Prod.mk.injEq] at hrun
    obtain ⟨-, h2⟩ := hrun
    split at ha
    · simp at ha
    · rename_i r2 v2 he
      split at ha
      · simp at ha
      · rename_i b3 v3 hp
        simp only [Option.some.injEq] at ha
        subst ha
        have l1 : Logged Call.is_program v v2 ([Call.eraseblock blockno] ++ []) :=
          (Logged.log_pos v _ rfl).logged_trans
            ((infectus_eraseblock_grows he).logged sendcommand_not_program)
        rw [for_indices_all] at hp
        have l2 := program_pages_writes env fuel cfg fp blockno hbytes h4 _ _ _ _ _
          (fun i hi => hfull i (List.mem_range.mp hi)) hp
        obtain ⟨cs, ⟨e1, -, -⟩, p1⟩ := (l0.logged_trans l1).logged_trans l2
        subst h2
        exact ⟨cs, e1, by simpa using p1⟩

set_option maxRecDepth 100000 in
/-- Witness for C4: the small geometry, a chip whose pages are `1 2 3 4`, a
file whose first page differs and whose second page is blank. -/
theorem flash_program_block_writes_nonblank_witness :
    ∃ (m : Nat) (v : World) (r : Int) (w1 : World),
      program_scan (env_const [0xFF, 1, 2, 3, 4]) 2 cfg_tiny [1, 2, 3, 9, 255, 255, 255, 255] 0
        (for_indices (if cfg_tiny.run_fast then 2 else 0) (if cfg_tiny.run_fast then 4 else 1)
          cfg_tiny.pages_per_block) World.empty = some (m, v) ∧
      0 < m ∧
      flash_program_block (env_const [0xFF, 1, 2, 3, 4]) 2 cfg_tiny
        [1, 2, 3, 9, 255, 255, 255, 255] 0 World.empty = some (r, w1) ∧
      ∃ cs, w1.calls = World.empty.calls ++ cs ∧
        cs.filter Call.is_program =
          Call.eraseblock 0 ::
            ((List.range cfg_tiny.pages_per_block).filter
              (fun i => !all_FF (file_page cfg_tiny [1, 2, 3, 9, 255, 255, 255, 255]
                (block_page cfg_tiny 0 i)))).map
              (fun i => Call.writeflashpage (block_page cfg_tiny 0 i)
                (file_page cfg_tiny [1, 2, 3, 9, 255, 255, 255, 255]
                  (block_page cfg_tiny 0 i))) := by
  have hs : (program_scan (env_const [0xFF, 1, 2, 3, 4]) 2 cfg_tiny
      [1, 2, 3, 9, 255, 255, 255, 255] 0
      (for_indices (if cfg_tiny.run_fast then 2 else 0) (if cfg_tiny.run_fast then 4 else 1)
        cfg_tiny.pages_per_block) World.empty).map Prod.fst = some 1 := by decide
  obtain ⟨⟨m, v⟩, h1, h2⟩ := Option.map_eq_some'.mp hs
  have hr : (flash_program_block (env_const [0xFF, 1, 2, 3, 4]) 2 cfg_tiny
      [1, 2, 3, 9, 255, 255, 255, 255] 0 World.empty).isSome = true := by decide
  obtain ⟨⟨r, w1⟩, h3⟩ := Option.isSome_iff_exists.mp hr
  simp only at h2
  subst h2
  exact ⟨1, v, r, w1, h1, by decide, h3,
    flash_program_block_writes_nonblank _ _ _ _ _ _ _ _ _ _ (by decide) (by decide)
      (by decide) h1 (by decide) h3⟩

theorem take_getD (l : List Nat) (n i : Nat) (hi : i < n) :
    (l.take n).getD i 0 = l.getD i 0 := by
  simp only [List.getD_eq_getElem?_getD]
  rw [List.getElem?_take_of_lt hi]

theorem memcmp_eq_zero (a b : List Nat) (n : Nat)
    (h : ∀ i, i < n → a.getD i 0 = b.getD i 0) : memcmp a b n = 0 := by
  by_contra hne
  obtain ⟨i, hi, hd⟩ := (memcmp_ne_zero_iff n a b).mp hne
  exact hd (h i hi)

/-- When the chip read delivers the bytes of a fully read file page, the
comparison returns 0. -/
theorem flash_compare_equal {env : Env} {fuel : Nat} {cfg : Config} (fp : List Nat)
    {pageno : Nat} (w : World)
    (hfile : (file_page cfg fp pageno).length = cfg.page_size + cfg.spare_size)
    (hchip : ∀ v : World, ∃ (len : Int) (buf2 : List Nat) (v1 : World),
      infectus_readflashpage env fuel cfg (zeros PAGEBUF_SIZE) pageno v = some (len, buf2, v1) ∧
      buf2.take (cfg.page_size + cfg.spare_size) = file_page cfg fp pageno) :
    ∃ w1, flash_compare env fuel cfg fp pageno w = some (0, w1) := by
  obtain ⟨len, buf2, v1, h1, h2⟩ := hchip w
  obtain ⟨w3, h3⟩ := flash_compare_eq env env rfl rfl fp rfl h1
  refine ⟨w3, ?_⟩
  rw [h3, memcmp_eq_zero]
  intro i hi
  have hrd : (file_readflashpage cfg fp (zeros PAGEBUF_SIZE) pageno).2 =
      overwrite (zeros PAGEBUF_SIZE) (file_page cfg fp pageno) := rfl
  rw [hrd, overwrite_getD _ _ i (by omega), ← take_getD buf2 _ i hi, h2]

/-- When every comparison of the scan returns 0, the scan returns 0
miscompares. -/
theorem program_scan_all_equal (env : Env) (fuel : Nat) (cfg : Config) (fp : List Nat)
    (blockno : Nat) :
    ∀ (idxs : List Nat) (w : World),
      (∀ i ∈ idxs, ∀ v : World, ∃ v1,
        flash_compare env fuel cfg fp (block_page cfg blockno i) v = some (0, v1)) →
      ∃ w1, program_scan env fuel cfg fp blockno idxs w = some (0, w1) := by
  intro idxs
  induction idxs with
  | nil => intro w _; exact ⟨w, rfl⟩
  | cons i rest ih =>
    intro w h
    obtain ⟨v1, h1⟩ := h i (List.mem_cons_self _ _) w
    obtain ⟨w1, h2⟩ := ih v1 (fun j hj => h j (List.mem_cons_of_mem _ hj))
    have hp : (blockno * cfg.pages_per_block + i) % 2 ^ 32 = block_page cfg blockno i := rfl
    refine ⟨w1, ?_⟩
    simp only [program_scan]
    rw [hp, h1]
    simpa using h2

/-- C5: for every block whose pages the reference file delivers in full and
whose chip pages read back, in every state of the bus, as the bytes of the
corresponding file pages, `flash_program_block` returns 0 with the scan phase
counting zero miscompares; everything it enters is a comparison (no erase, no
page write, and only read commands go to the transport), and `blocks_done`,
below its 32-bit maximum, is one more than before. -/
theorem flash_program_block_idempotent (env : Env) (fuel : Nat) (cfg : Config)
    (fp : List Nat) (blockno : Nat) (w : World)
    (hfile : ∀ i, i < cfg.pages_per_block →
      (file_page cfg fp (block_page cfg blockno i)).length = cfg.page_size + cfg.spare_size)
    (hchip : ∀ i, i < cfg.pages_per_block → ∀ v : World,
      ∃ (len : Int) (buf2 : List Nat) (v1 : World),
        infectus_readflashpage env fuel cfg (zeros PAGEBUF_SIZE) (block_page cfg blockno i) v =
          some (len, buf2, v1) ∧
        buf2.take (cfg.page_size + cfg.spare_size) =
          file_page cfg fp (block_page cfg blockno i))
    (hdone : w.blocks_done + 1 < 2 ^ 32) :
    ∃ (w0 w1 : World),
      program_scan env fuel cfg fp blockno
        (for_indices (if cfg.run_fast then 2 else 0) (if cfg.run_fast then 4 else 1)
          cfg.pages_per_block) w = some (0, w0) ∧
      flash_program_block env fuel cfg fp blockno w = some (0, w1) ∧
      w1.blocks_done = w.blocks_done + 1 ∧ w1.usb = w0.usb ∧
      ∃ cs, w1.calls = w.calls ++ cs ∧ (∀ c ∈ cs, c.is_read = true) ∧
        cs.filter Call.is_program = [] := by
  obtain ⟨w0, hs⟩ := program_scan_all_equal env fuel cfg fp blockno
    (for_indices (if cfg.run_fast then 2 else 0) (if cfg.run_fast then 4 else 1)
      cfg.pages_per_block) w
    (fun i hi v => flash_compare_equal fp v (hfile i (for_indices_lt hi))
      (hchip i (for_indices_lt hi)))
  obtain ⟨cs, ⟨e1, e2, -⟩, p1⟩ := (program_scan_reads env fuel cfg fp blockno _ _ _ _ hs).1
  refine ⟨w0, { w0 with blocks_done := (w0.blocks_done + 1) % 2 ^ 32 }, hs, ?_, ?_, rfl,
    cs, e1, p1, ?_⟩
  · unfold flash_program_block
    simp only
    rw [hs]
    simp
  · show (w0.blocks_done + 1) % 2 ^ 32 = w.blocks_done + 1
    rw [e2]
    exact Nat.mod_eq_of_lt hdone
  · rw [List.filter_eq_nil_iff]
    intro c hc
    rw [read_not_program c (p1 c hc)]
    simp

set_option maxRecDepth 100000 in
/-- Witness for C5: the small geometry and a chip whose pages are `1 2 3 4`;
the reference file is the one `flash_dump_block` writes for block 0. -/
theorem flash_program_block_idempotent_witness :
    (flash_dump_block (env_const [0xFF, 1, 2, 3, 4]) 2 cfg_tiny [] 0 World.empty).map
        (fun r => r.2.1) = some [1, 2, 3, 4, 1, 2, 3, 4] ∧
    ∃ (w0 w1 : World),
      program_scan (env_const [0xFF, 1, 2, 3, 4]) 2 cfg_tiny [1, 2, 3, 4, 1, 2, 3, 4] 0
        (for_indices (if cfg_tiny.run_fast then 2 else 0) (if cfg_tiny.run_fast then 4 else 1)
          cfg_tiny.pages_per_block) World.empty = some (0, w0) ∧
      flash_program_block (env_const [0xFF, 1, 2, 3, 4]) 2 cfg_tiny [1, 2, 3, 4, 1, 2, 3, 4] 0
        World.empty = some (0, w1) ∧
      w1.blocks_done = World.empty.blocks_done + 1 ∧ w1.usb = w0.usb ∧
      ∃ cs, w1.calls = World.empty.calls ++ cs ∧ (∀ c ∈ cs, c.is_read = true) ∧
        cs.filter Call.is_program = [] := by
  refine ⟨by decide, ?_⟩
  apply flash_program_block_idempotent (env_const [0xFF, 1, 2, 3, 4]) 2 cfg_tiny
    [1, 2, 3, 4, 1, 2, 3, 4] 0 World.empty
  · decide
  · intro i hi v
    have hi2 : i = 0 ∨ i = 1 := by
      have : i < 2 := hi
      omega
    rcases hi2 with rfl | rfl
    · exact ⟨_, _, _, rfl, rfl⟩
    · exact ⟨_, _, _, rfl, rfl⟩
  · decide

set_option maxRecDepth 100000 in
/-- C9 (the code at the failing input): the option `-q` sets `quick_check` and
leaves `run_fast`, the variable the scan loop tests, at 0. So with
`quick_check` set the scan loop of `flash_program_block` runs over the page
indices 0, 1, ..., 63, and the first page it compares is index 0, not index 2
(on the device whose transfers all fail, page 0 of block 0 miscompares and is
the only page compared). -/
theorem quick_check_is_ignored :
    main_options Config.initial [('q', 0)] = some cfg_quick ∧
    cfg_quick.quick_check = true ∧ cfg_quick.run_fast = false ∧
    for_indices (if cfg_quick.run_fast then 2 else 0) (if cfg_quick.run_fast then 4 else 1)
      cfg_quick.pages_per_block = List.range 64 ∧
    (flash_program_block env_dead 1 cfg_quick [] 0 World.empty).map
      (fun r => r.2.calls.filter Call.is_compare) = some [Call.compare 0] := by
  decide

/-- C10: the chip lookup of `main`. It accepts exactly `0xECF1`, with
`num_blocks = 1024`, and `0xADDC`, `0xECDC`, `0x2CDC`, `0x98DC`, with
`num_blocks = 4096`. For an ID of zero the run ends with the no-chip failure,
for every other ID with the unknown-chip failure, and in both cases `main`
ends with the state and the file as they were: no command was run. -/
theorem main_chip_switch_exact (cfg : Config) (flashid : Nat) :
    (∀ cfg1, main_chip_switch cfg flashid = .ok cfg1 ↔
      (flashid = 0xECF1 ∧ cfg1 = { cfg with num_blocks := 1024 }) ∨
      ((flashid = 0xADDC ∨ flashid = 0xECDC ∨ flashid = 0x2CDC ∨ flashid = 0x98DC) ∧
        cfg1 = { cfg with num_blocks := 4096 })) ∧
    (main_chip_switch cfg flashid = .error Exit.no_chip ↔ flashid = 0) ∧
    (main_chip_switch cfg flashid = .error Exit.unknown_chip ↔
      flashid ≠ 0 ∧ flashid ≠ 0xECF1 ∧ flashid ≠ 0xADDC ∧ flashid ≠ 0xECDC ∧
        flashid ≠ 0x2CDC ∧ flashid ≠ 0x98DC) ∧
    (∀ env fuel command file w, flashid = 0 →
      main_tail env fuel cfg command file flashid w = some (Exit.no_chip, file, w)) ∧
    (∀ env fuel command file w, flashid ≠ 0 → flashid ≠ 0xECF1 → flashid ≠ 0xADDC →
      flashid ≠ 0xECDC → flashid ≠ 0x2CDC → flashid ≠ 0x98DC →
      main_tail env fuel cfg command file flashid w = some (Exit.unknown_chip, file, w)) := by
  refine ⟨?_, ?_, ?_, ?_, ?_⟩
  · intro cfg1
    unfold main_chip_switch
    split_ifs with h1 h2 h3 h4 h5 h6
    all_goals simp_all
    all_goals first | omega | (constructor <;> intro h <;> exact h.symm)
  · unfold main_chip_switch
    split_ifs with h1 h2 h3 h4 h5 h6
    all_goals simp_all
  · unfold main_chip_switch
    split_ifs with h1 h2 h3 h4 h5 h6
    all_goals simp_all
  · intro env fuel command file w h0
    subst h0
    simp [main_tail, main_chip_switch]
  · intro env fuel command file w h0 h1 h2 h3 h4 h5
    simp [main_tail, main_chip_switch, h0, h1, h2, h3, h4, h5]

/-- Witness for C10: an ID of zero, an unknown ID and a known ID. -/
theorem main_chip_switch_exact_witness :
    main_tail env_dead 1 Config.initial "program" (some []) 0 World.empty =
      some (Exit.no_chip, some [], World.empty) ∧
    main_tail env_dead 1 Config.initial "erase" none 0x1234 World.empty =
      some (Exit.unknown_chip, none, World.empty) ∧
    main_chip_switch Config.initial 0xECF1 = .ok { Config.initial with num_blocks := 1024 } :=
  ⟨(main_chip_switch_exact Config.initial 0).2.2.2.1 env_dead 1 "program" (some [])
      World.empty rfl,
    (main_chip_switch_exact Config.initial 0x1234).2.2.2.2 env_dead 1 "erase" none
      World.empty (by decide) (by decide) (by decide) (by decide) (by decide) (by decide),
    ((main_chip_switch_exact Config.initial 0xECF1).1 _).mpr (Or.inl ⟨rfl, rfl⟩)⟩

/-- No command line sets `run_fast`: whatever the options, the scan of
`flash_program_block` is the sequential one. -/
theorem main_options_keep_run_fast : ∀ (opts : List (Char × Nat)) (cfg cfg1 : Config),
    cfg.run_fast = false → main_options cfg opts = some cfg1 → cfg1.run_fast = false := by
  intro opts
  induction opts with
  | nil =>
    intro cfg cfg1 h0 h
    simp only [main_options, Option.some.injEq] at h
    subst h
    exact h0
  | cons o rest ih =>
    intro cfg cfg1 h0 h
    obtain ⟨ch, optarg⟩ := o
    simp only [main_options] at h
    split at h
    · simp at h
    · rename_i cfg2 h2
      refine ih cfg2 cfg1 ?_ h
      unfold main_option at h2
      split_ifs at h2 <;> simp only [Option.some.injEq] at h2 <;> subst h2 <;> exact h0

/-! ### The blank test -/

/-- C15 (counterexample): for `len = 5` the fifth byte is not looked at: the
buffer `FF FF FF FF 00` is reported as all `0xFF`. -/
theorem flash_isFF_ignores_tail :
    flash_isFF [0xFF, 0xFF, 0xFF, 0xFF, 0x00] 5 = 1 ∧
    ¬ (∀ j, j < 5 → [0xFF, 0xFF, 0xFF, 0xFF, 0x00].getD j 0 = 0xFF) := by
  decide

theorem flash_isFF_round_down (buf : List Nat) (n : Nat) :
    flash_isFF buf (n : Int) = flash_isFF buf ((4 * (n / 4) : Nat) : Int) := by
  have h1 : (Int.tdiv (n : Int) 4).toNat = n / 4 := by
    have : Int.tdiv (n : Int) 4 = ((n / 4 : Nat) : Int) := rfl
    rw [this]; exact Int.toNat_ofNat _
  have h2 : (Int.tdiv ((4 * (n / 4) : Nat) : Int) 4).toNat = n / 4 := by
    have : Int.tdiv ((4 * (n / 4) : Nat) : Int) 4 = ((4 * (n / 4) / 4 : Nat) : Int) := rfl
    rw [this, Int.toNat_ofNat]
    omega
  unfold flash_isFF
  rw [h1, h2]

theorem flash_isFF_zero_or_one (buf : List Nat) (len : Int) :
    flash_isFF buf len = 1 ∨ flash_isFF buf len = 0 := by
  unfold flash_isFF
  rw [flash_isFF_loop_eq]
  split
  · exact Or.inl rfl
  · exact Or.inr rfl

theorem getD_lt_of_bytes (buf : List Nat) (hb : ∀ b ∈ buf, b < 256) (j : Nat) :
    buf.getD j 0 < 256 := by
  by_cases hj : j < buf.length
  · rw [List.getD_eq_getElem _ _ hj]
    exact hb _ (List.getElem_mem _)
  · rw [List.getD_eq_getElem?_getD, List.getElem?_eq_none (by omega)]
    decide

/-- C15 (amended): for every buffer of bytes and every length `len ≥ 0`,
`flash_isFF(buf, len)` returns 1 if and only if every one of the first
`4 * (len / 4)` bytes (the whole 32-bit words below `len`) is `0xFF`, and
returns 0 otherwise; so for `len` a multiple of 4, as at its only call, it
returns 1 if and only if every one of the first `len` bytes is `0xFF`. -/
theorem flash_isFF_whole_words (buf : List Nat) (n : Nat) (hb : ∀ b ∈ buf, b < 256) :
    (flash_isFF buf (n : Int) = 1 ↔ ∀ j, j < 4 * (n / 4) → buf.getD j 0 = 0xFF) ∧
    (flash_isFF buf (n : Int) ≠ 1 → flash_isFF buf (n : Int) = 0) ∧
    (n % 4 = 0 → (flash_isFF buf (n : Int) = 1 ↔ ∀ j, j < n → buf.getD j 0 = 0xFF)) := by
  have key : flash_isFF buf (n : Int) = 1 ↔ ∀ j, j < 4 * (n / 4) → buf.getD j 0 = 0xFF := by
    rw [flash_isFF_round_down]
    have h := flash_isFF_ne_zero_iff buf (4 * (n / 4)) (by omega)
      (fun j _ => getD_lt_of_bytes buf hb j)
    rw [← h]
    rcases flash_isFF_zero_or_one buf ((4 * (n / 4) : Nat) : Int) with h1 | h0
    · rw [h1]; simp
    · rw [h0]; simp
  refine ⟨key, ?_, ?_⟩
  · intro h
    rcases flash_isFF_zero_or_one buf (n : Int) with h1 | h0
    · exact absurd h1 h
    · exact h0
  · intro h4
    have hn : 4 * (n / 4) = n := by omega
    rw [hn] at key
    exact key

/-- Witness for C15 (amended): a buffer of five bytes and `len = 5`. -/
theorem flash_isFF_whole_words_witness :
    (flash_isFF [0xFF, 0xFF, 0xFF, 0xFF, 0x00] ((5 : Nat) : Int) = 1 ↔
      ∀ j, j < 4 * (5 / 4) → [0xFF, 0xFF, 0xFF, 0xFF, 0x00].getD j 0 = 0xFF) ∧
    (flash_isFF [0xFF, 0xFF, 0xFF, 0xFF, 0x00] ((5 : Nat) : Int) ≠ 1 →
      flash_isFF [0xFF, 0xFF, 0xFF, 0xFF, 0x00] ((5 : Nat) : Int) = 0) ∧
    (5 % 4 = 0 → (flash_isFF [0xFF, 0xFF, 0xFF, 0xFF, 0x00] ((5 : Nat) : Int) = 1 ↔
      ∀ j, j < 5 → [0xFF, 0xFF, 0xFF, 0xFF, 0x00].getD j 0 = 0xFF)) :=
  flash_isFF_whole_words [0xFF, 0xFF, 0xFF, 0xFF, 0x00] 5 (by decide)

/-! ### Adapter identity -/

/-- C14 (the code at the failing input): the device answers the identity query
with the byte 8. The test `buf[1] > sizeof pld_ids / 4` compares with 8 where
pointers are 4 bytes and with 16 where they are 8 bytes, so for the byte 8 the
unknown-identity branch is not taken on either: the table of 8 entries is
indexed at 8, past its end. With 8-byte pointers the same holds up to the
byte 16. -/
theorem infectus_check_pld_id_indexes_past_table :
    pld_ids.length = 8 ∧
    (infectus_check_pld_id (env_const [0xFF, 8]) 2 4 World.empty).map (fun r => (r.1, r.2.1)) =
      some (0, some (PldReport.entry 8 none)) ∧
    (infectus_check_pld_id (env_const [0xFF, 8]) 2 8 World.empty).map (fun r => (r.1, r.2.1)) =
      some (0, some (PldReport.entry 8 none)) ∧
    (infectus_check_pld_id (env_const [0xFF, 16]) 2 8 World.empty).map (fun r => (r.1, r.2.1)) =
      some (0, some (PldReport.entry 16 none)) ∧
    (infectus_check_pld_id (env_const [0xFF, 9]) 2 4 World.empty).map (fun r => (r.1, r.2.1)) =
      some (0, some (PldReport.unknown 9)) := by
  decide

/-! ### Data frames -/

/-- The first transfer of a command is the write of its frame. -/
theorem infectus_sendcommand_first_write {env : Env} {fuel : Nat} {buf : List Nat}
    {len maxsize : Nat} {w : World} {r : Int} {buf1 : List Nat} {w1 : World}
    (h : infectus_sendcommand env fuel buf len maxsize w = some (r, buf1, w1))
    (hpos : 0 < len) :
    ∃ (q : Int) (rest : List UsbEvent),
      w1.usb = w.usb ++ UsbEvent.write (buf.take len) q :: rest := by
  unfold infectus_sendcommand at h
  cases fuel with
  | zero => simp [sendcommand_loop] at h
  | succ n =>
    have hp : (0 : Int) < (len : Int) := by exact_mod_cast hpos
    simp only [sendcommand_loop, hp, if_true] at h
    split at h
    · simp only [Option.some.injEq, Prod.mk.injEq] at h
      obtain ⟨-, -, h3⟩ := h
      subst h3
      exact ⟨env.usb_bulk_write w.usb (buf.take len), [], by simp [World.bus, World.log]⟩
    · obtain ⟨evs, e, h1, -, -, -, -, -⟩ := sendcommand_loop_trace env len maxsize _ _ _ _ _ _ _ h
      exact ⟨env.usb_bulk_write w.usb (buf.take len), evs ++ [e],
        by rw [h1]; simp [World.bus, World.log]⟩

theorem nand_send_frame (buf : List Nat) (len : Nat) (h : len ≤ buf.length) :
    (write_at (((overwrite (zeros PAGEBUF_SIZE)
        [0x4e, 0x01, 0x00, 0x00, 0x00, 0x00, 0x00, 0x00]).set 6 ((len / 256) % 256)).set 7
          (len % 256)) 8 (buf.take len)).take (len + 8) = send_frame len (buf.take len) := by
  have hl : (buf.take len).length = len := by simp [h]
  simp only [overwrite, List.cons_append, List.nil_append, List.set_cons_succ,
    List.set_cons_zero, write_at, List.take_succ_cons, List.take_zero, List.length_cons,
    List.length_nil, send_frame]
  rw [List.take_left']
  exact hl

/-- What one data transfer does to the log and the bus: it hands the header
followed by the payload to the transport, and its first transfer is the write
of that frame. -/
theorem infectus_nand_send_effect {env : Env} {fuel : Nat} {buf : List Nat} {len : Nat}
    {w : World} {r : Int} {buf1 : List Nat} {w1 : World} (hlen : len ≤ buf.length)
    (h : infectus_nand_send env fuel buf len w = some (r, buf1, w1)) :
    w1.calls = w.calls ++ [Call.sendcommand (send_frame len (buf.take len))] ∧
    w1.blocks_done = w.blocks_done ∧
    ∃ (q : Int) (rest : List UsbEvent),
      w1.usb = w.usb ++ UsbEvent.write (send_frame len (buf.take len)) q :: rest := by
  unfold infectus_nand_send at h
  simp only at h
  split at h
  · simp at h
  · rename_i r0 t0 v0 h0
    obtain ⟨-, -, -, -, -, c1, d1⟩ := infectus_sendcommand_effect h0
    obtain ⟨q, rest, u1⟩ := infectus_sendcommand_first_write h0 (by omega)
    rw [nand_send_frame buf len hlen] at c1 u1
    have hv : w1 = v0 := by
      split at h
      · simp only [Option.some.injEq, Prod.mk.injEq] at h
        exact h.2.2.symm
      · simp only [Option.some.injEq, Prod.mk.injEq] at h
        exact h.2.2.symm
    subst hv
    exact ⟨c1, d1, q, rest, u1⟩

set_option maxRecDepth 100000 in
/-- C11 (counterexample): the frame `infectus_nand_receive` transmits for
`len = 704` is the 8 bytes `4E 02 00 00 00 00 02 C0`: after the two opcode bytes
come four zero bytes, not five, and the length follows at bytes 6 and 7. -/
theorem infectus_nand_receive_four_reserved :
    (infectus_nand_receive env_dead 1 (zeros PAGEBUF_SIZE) 704 World.empty).map
        (fun r => r.2.2.usb) =
      some [UsbEvent.write [0x4e, 0x02, 0, 0, 0, 0, 0x02, 0xC0] (-5)] ∧
    [0x4e, 0x02, 0, 0, 0, 0, 0x02, 0xC0] ≠
      [INFECTUS_NAND_CMD, INFECTUS_NAND_RECV] ++ [0, 0, 0, 0, 0] ++ [704 / 256, 704 % 256] := by
  decide

/-- C11 (amended): for every `len` in 0..65535 the frame of
`infectus_nand_receive(len)` consists of the marker byte `0x4E`, the sub-opcode
byte 2, 4 reserved zero bytes, and `len` as a 16-bit big-endian value (high
byte, then low byte); the frame of `infectus_nand_send` has the same header
with sub-opcode 1, followed by the `len` payload bytes. Whenever the function
returns, this frame is the one handed to the transport, and the first transfer
on the bus is the write of it. For `infectus_nand_send` the payload has to be
there (`len ≤ buf.length`) and the frame has to fit its 4096-byte buffer. -/
theorem nand_frames_layout (env : Env) (fuel : Nat) (buf : List Nat) (len : Nat) (w : World)
    (hlen : len < 65536) :
    recv_frame len = [0x4e, 0x02, 0, 0, 0, 0, len / 256, len % 256] ∧
    send_frame len (buf.take len) = [0x4e, 0x01, 0, 0, 0, 0, len / 256, len % 256] ++ buf.take len ∧
    (recv_frame len).getD 6 0 * 256 + (recv_frame len).getD 7 0 = len ∧
    (∀ r buf1 w1, infectus_nand_receive env fuel buf len w = some (r, buf1, w1) →
      w1.calls = w.calls ++ [Call.sendcommand (recv_frame len)] ∧
      ∃ (q : Int) (rest : List UsbEvent),
        w1.usb = w.usb ++ UsbEvent.write (recv_frame len) q :: rest) ∧
    (∀ r buf1 w1, len ≤ buf.length → len + 8 ≤ PAGEBUF_SIZE →
      infectus_nand_send env fuel buf len w = some (r, buf1, w1) →
      w1.calls = w.calls ++ [Call.sendcommand (send_frame len (buf.take len))] ∧
      ∃ (q : Int) (rest : List UsbEvent),
        w1.usb = w.usb ++ UsbEvent.write (send_frame len (buf.take len)) q :: rest) := by
  have hhi : len / 256 % 256 = len / 256 := Nat.mod_eq_of_lt (by omega)
  have hshift : len >>> 8 = len / 256 := by
    rw [Nat.shiftRight_eq_div_pow]
  refine ⟨?_, ?_, ?_, ?_, ?_⟩
  · simp [recv_frame, INFECTUS_NAND_CMD, INFECTUS_NAND_RECV, hshift, hhi]
  · simp [send_frame, hhi]
  · simp only [recv_frame, hshift, hhi]
    simp only [List.getD_eq_getElem?_getD, List.getElem?_cons_succ, List.getElem?_cons_zero,
      Option.getD_some]
    omega
  · intro r buf1 w1 h
    obtain ⟨seg, -, -, -, h4, -⟩ := infectus_nand_receive_effect h
    unfold infectus_nand_receive at h
    obtain ⟨q, rest, u1⟩ := infectus_sendcommand_first_write h (by omega)
    rw [nand_receive_frame] at u1
    exact ⟨h4, q, rest, u1⟩
  · intro r buf1 w1 hb _ h
    obtain ⟨c1, -, q, rest, u1⟩ := infectus_nand_send_effect hb h
    exact ⟨c1, q, rest, u1⟩

set_option maxRecDepth 100000 in
/-- Witness for C11 (amended): a receive request for 704 bytes and a data
transfer of 4 bytes on the device whose transfers all fail. -/
theorem nand_frames_layout_witness :
    recv_frame 704 = [0x4e, 0x02, 0, 0, 0, 0, 704 / 256, 704 % 256] ∧
    (∃ (r : Int) (buf1 : List Nat) (w1 : World),
      infectus_nand_receive env_dead 1 [1, 2, 3, 4] 704 World.empty = some (r, buf1, w1) ∧
      w1.calls = World.empty.calls ++ [Call.sendcommand (recv_frame 704)] ∧
      ∃ (q : Int) (rest : List UsbEvent),
        w1.usb = World.empty.usb ++ UsbEvent.write (recv_frame 704) q :: rest) ∧
    (∃ (r : Int) (buf1 : List Nat) (w1 : World),
      infectus_nand_send env_dead 1 [1, 2, 3, 4] 4 World.empty = some (r, buf1, w1) ∧
      w1.calls = World.empty.calls ++ [Call.sendcommand (send_frame 4 ([1, 2, 3, 4].take 4))] ∧
      ∃ (q : Int) (rest : List UsbEvent),
        w1.usb = World.empty.usb ++
          UsbEvent.write (send_frame 4 ([1, 2, 3, 4].take 4)) q :: rest) := by
  have h1 : (infectus_nand_receive env_dead 1 [1, 2, 3, 4] 704 World.empty).isSome = true := by
    decide
  have h2 : (infectus_nand_send env_dead 1 [1, 2, 3, 4] 4 World.empty).isSome = true := by
    decide
  obtain ⟨⟨r, b, v⟩, e1⟩ := Option.isSome_iff_exists.mp h1
  obtain ⟨⟨r2, b2, v2⟩, e2⟩ := Option.isSome_iff_exists.mp h2
  exact ⟨(nand_frames_layout env_dead 1 [1, 2, 3, 4] 704 World.empty (by decide)).1,
    ⟨r, b, v, e1,
      (nand_frames_layout env_dead 1 [1, 2, 3, 4] 704 World.empty (by decide)).2.2.2.1 _ _ _ e1⟩,
    ⟨r2, b2, v2, e2,
      (nand_frames_layout env_dead 1 [1, 2, 3, 4] 4 World.empty (by decide)).2.2.2.2 _ _ _
        (by decide) (by decide) e2⟩⟩

/-! ### Erase and page write -/

theorem nand_command_frame3 (buf : List Nat) (a b c d : Nat) :
    (infectus_nand_command buf 3 [a, b, c, d]).1.take
        (infectus_nand_command buf 3 [a, b, c, d]).2 =
      command_frame [a, b, c, d] := by
  simp [infectus_nand_command, overwrite, zeros, List.replicate, List.range, List.range.loop,
    command_frame]

/-- One status query hands its two commands to the transport. -/
theorem infectus_getstatus_effect {env : Env} {fuel : Nat} {w : World} {st : Nat} {w1 : World}
    (h : infectus_getstatus env fuel w = some (st, w1)) :
    w1.calls = w.calls ++ status_poll ∧ w1.blocks_done = w.blocks_done := by
  unfold infectus_getstatus at h
  simp only at h
  split at h
  · simp at h
  · rename_i r0 b0 v0 h0
    split at h
    · simp at h
    · rename_i r1 b1 v1 h1
      simp only [Option.some.injEq, Prod.mk.injEq] at h
      obtain ⟨-, h3⟩ := h
      subst h3
      obtain ⟨-, -, -, -, -, c0, d0⟩ := infectus_sendcommand_effect h0
      obtain ⟨seg, -, -, -, c1, d1⟩ := infectus_nand_receive_effect h1
      rw [nand_command_frame0] at c0
      exact ⟨by rw [c1, c0]; simp [status_poll], by rw [d1, d0]⟩

/-- The status wait hands one or more status queries to the transport. -/
theorem wait_flash_effect (env : Env) (fuel : Nat) :
    ∀ (n : Nat) (w w1 : World), wait_flash env fuel n w = some w1 →
      ∃ k, 1 ≤ k ∧ w1.calls = w.calls ++ (List.replicate k status_poll).flatten ∧
        w1.blocks_done = w.blocks_done := by
  intro n
  induction n with
  | zero => intro w w1 h; simp [wait_flash] at h
  | succ n ih =>
    intro w w1 h
    simp only [wait_flash] at h
    split at h
    · simp at h
    · rename_i st v0 h0
      obtain ⟨c0, d0⟩ := infectus_getstatus_effect h0
      split at h
      · obtain ⟨k, hk, c1, d1⟩ := ih _ _ h
        exact ⟨k + 1, by omega, by rw [c1, c0]; simp [List.replicate_succ], by rw [d1, d0]⟩
      · simp only [Option.some.injEq] at h
        subst h
        exact ⟨1, le_refl 1, by rw [c0]; simp, d0⟩

/-- The optional status wait: nothing without `check_status`, one or more
status queries with it. -/
theorem status_wait_effect {env : Env} {fuel : Nat} {b : Bool} {w w1 : World}
    (h : (if b = true then wait_flash env fuel fuel w else some w) = some w1) :
    ∃ k, (b = false → k = 0) ∧ (b = true → 1 ≤ k) ∧
      w1.calls = w.calls ++ (List.replicate k status_poll).flatten ∧
      w1.blocks_done = w.blocks_done := by
  split at h
  · rename_i hb
    obtain ⟨k, hk, c1, d1⟩ := wait_flash_effect env fuel _ _ _ h
    exact ⟨k, by simp [hb], fun _ => hk, c1, d1⟩
  · rename_i hb
    simp only [Option.some.injEq] at h
    subst h
    exact ⟨0, fun _ => rfl, fun hb1 => absurd hb1 hb, by simp, rfl⟩

/-- What a block erase outside test mode hands to the transport. -/
theorem infectus_eraseblock_effect {env : Env} {fuel : Nat} {cfg : Config} {blockno : Nat}
    {w : World} {r : Int} {w1 : World} (htest : cfg.test_mode = false)
    (h : infectus_eraseblock env fuel cfg blockno w = some (r, w1)) :
    ∃ (k : Nat) (q : Int) (rest : List UsbEvent),
      w1.calls = w.calls ++
        [Call.eraseblock blockno,
          Call.sendcommand (command_frame [NAND_ERASE_PRE,
            (blockno * cfg.pages_per_block) % 2 ^ 32,
            ((blockno * cfg.pages_per_block) % 2 ^ 32) >>> 8,
            ((blockno * cfg.pages_per_block) % 2 ^ 32) >>> 16]),
          Call.sendcommand (command_frame [NAND_ERASE_POST])] ++
        (List.replicate k status_poll).flatten ∧
      (cfg.check_status = false → k = 0) ∧
      w1.usb = w.usb ++ UsbEvent.write (command_frame [NAND_ERASE_PRE,
            (blockno * cfg.pages_per_block) % 2 ^ 32,
            ((blockno * cfg.pages_per_block) % 2 ^ 32) >>> 8,
            ((blockno * cfg.pages_per_block) % 2 ^ 32) >>> 16]) q :: rest := by
  unfold infectus_eraseblock at h
  simp only [htest, Bool.false_eq_true, if_false] at h
  split at h
  · simp at h
  · rename_i r1 b1 v1 h1
    split at h
    · simp at h
    · rename_i r2 b2 v2 h2
      split at h
      · simp at h
      · rename_i v3 h3
        simp only [Option.some.injEq, Prod.mk.injEq] at h
        obtain ⟨-, h4⟩ := h
        subst h4
        obtain ⟨e1, l1, u1, -, -, c1, -⟩ := infectus_sendcommand_effect h1
        obtain ⟨q, rest, f1⟩ := infectus_sendcommand_first_write h1
          (by simp [infectus_nand_command])
        obtain ⟨e2, l2, u2, -, -, c2, -⟩ := infectus_sendcommand_effect h2
        obtain ⟨k, hk0, -, c3, -⟩ := status_wait_effect h3
        obtain ⟨cs, ⟨-, -, evs, u3⟩, -⟩ := status_wait_grows h3
        rw [nand_command_frame3] at c1 f1
        rw [nand_command_frame0] at c2
        refine ⟨k, q, rest ++ (e2 ++ [l2]) ++ evs, ?_, hk0, ?_⟩
        · rw [c3, c2, c1]; simp [World.log]
        · rw [u3, u2, f1]; simp [World.log]

theorem erase_pre_frame_eq (r : Nat) :
    command_frame [NAND_ERASE_PRE, r % 2 ^ 32, (r % 2 ^ 32) >>> 8, (r % 2 ^ 32) >>> 16] =
      erase_pre_frame r := by
  have h8 : (r % 2 ^ 32) >>> 8 = r % 2 ^ 32 / 256 := by
    rw [Nat.shiftRight_eq_div_pow]
  have h16 : (r % 2 ^ 32) >>> 16 = r % 2 ^ 32 / 65536 := by
    rw [Nat.shiftRight_eq_div_pow]
  rw [h8, h16]
  simp only [command_frame, erase_pre_frame, INFECTUS_NAND_CMD, NAND_ERASE_PRE, List.map_cons,
    List.map_nil, List.length_cons, List.length_nil, List.cons_append, List.nil_append]
  have a1 : r % 2 ^ 32 % 256 = r % 256 := by omega
  have a2 : r % 2 ^ 32 / 256 % 256 = r / 256 % 256 := by omega
  have a3 : r % 2 ^ 32 / 65536 % 256 = r / 65536 % 256 := by omega
  rw [a1, a2, a3]

/-- On a responsive device a block erase outside test mode and without status
wait returns, and the bus carries its two strobes, each answered once. -/
theorem infectus_eraseblock_ok {env : Env} (fuel : Nat) (cfg : Config) (blockno : Nat)
    (w : World) (htest : cfg.test_mode = false) (hcs : cfg.check_status = false)
    (hwr : ∀ h f, env.usb_bulk_write h f = (f.length : Int))
    (hstrobe : ∀ h, 0 ≤ (env.usb_bulk_read h 128).1 ∧
      ((env.usb_bulk_read h 128).2.take (env.usb_bulk_read h 128).1.toNat).head? = some 0xFF) :
    ∃ (r q1 : Int) (e1 e2 : List Nat) (w1 : World),
      infectus_eraseblock env (fuel + 2) cfg blockno w = some (r, w1) ∧
      w1.usb = w.usb ++
        [UsbEvent.write (erase_pre_frame (blockno * cfg.pages_per_block)) 12,
          UsbEvent.read 128 q1 e1,
          UsbEvent.write erase_post_frame 9,
          UsbEvent.read 128 r e2] := by
  have hpost : command_frame [NAND_ERASE_POST] = erase_post_frame := by
    simp [command_frame, erase_post_frame, INFECTUS_NAND_CMD, NAND_ERASE_POST]
  obtain ⟨q1, e1, b1, v1, s1, u1, -, -⟩ := strobe_ok fuel _ _ _
    (w.log (Call.eraseblock blockno)) hwr hstrobe
    (nand_command_frame3 (zeros 128) NAND_ERASE_PRE ((blockno * cfg.pages_per_block) % 2 ^ 32)
      (((blockno * cfg.pages_per_block) % 2 ^ 32) >>> 8)
      (((blockno * cfg.pages_per_block) % 2 ^ 32) >>> 16))
    (by simp [command_frame, infectus_nand_command]) (by simp [infectus_nand_command])
  obtain ⟨q2, e2, b2, v2, s2, u2, -, -⟩ := strobe_ok fuel _ _ _ v1 hwr hstrobe
    (nand_command_frame0 b1 NAND_ERASE_POST)
    (by simp [command_frame, infectus_nand_command]) (by simp [infectus_nand_command])
  rw [erase_pre_frame_eq] at u1
  rw [hpost] at u2
  refine ⟨q2, q1, e1, e2, v2, ?_, ?_⟩
  · unfold infectus_eraseblock
    simp only [htest, hcs, Bool.false_eq_true, if_false]
    rw [s1]
    simp only
    rw [s2]
  · rw [u2, u1]
    simp [World.log, infectus_nand_command]

/-- C12: with test mode off, for every block number `b`. (1) Whenever
`infectus_eraseblock` returns: the first frame it hands to the transport, and
the first frame written on the bus, is the 12-byte command frame with opcode
`0x60` followed by the bytes `r mod 256`, `(r / 256) mod 256`,
`(r / 65536) mod 256` of `r = b * pages_per_block`; the second frame it hands
to the transport is the commit strobe `0xD0`; after these come only status
queries, and none without `check_status`. Whenever `r < 2^24` the three
address bytes decode back to `r`. (2) On a device that accepts every frame in
full and answers every strobe with a reply that starts with the sync byte,
without `check_status`, it returns (a budget of two transfers per command is
enough) and the bus carries exactly the write of the first frame, its reply,
the write of the commit strobe and its reply. -/
theorem infectus_eraseblock_frames (env : Env) (fuel : Nat) (cfg : Config) (blockno : Nat)
    (w : World) (htest : cfg.test_mode = false) :
    (∀ r w1, infectus_eraseblock env fuel cfg blockno w = some (r, w1) →
      ∃ (k : Nat) (q : Int) (rest : List UsbEvent),
        w1.calls = w.calls ++
          [Call.eraseblock blockno,
            Call.sendcommand (erase_pre_frame (blockno * cfg.pages_per_block)),
            Call.sendcommand erase_post_frame] ++
          (List.replicate k status_poll).flatten ∧
        (cfg.check_status = false → k = 0) ∧
        w1.usb = w.usb ++
          UsbEvent.write (erase_pre_frame (blockno * cfg.pages_per_block)) q :: rest) ∧
    (erase_pre_frame (blockno * cfg.pages_per_block)).length = 12 ∧
    (blockno * cfg.pages_per_block < 2 ^ 24 →
      (erase_pre_frame (blockno * cfg.pages_per_block)).getD 9 0 +
        256 * (erase_pre_frame (blockno * cfg.pages_per_block)).getD 10 0 +
        65536 * (erase_pre_frame (blockno * cfg.pages_per_block)).getD 11 0 =
      blockno * cfg.pages_per_block) ∧
    (cfg.check_status = false → (∀ h f, env.usb_bulk_write h f = (f.length : Int)) →
      (∀ h, 0 ≤ (env.usb_bulk_read h 128).1 ∧
        ((env.usb_bulk_read h 128).2.take (env.usb_bulk_read h 128).1.toNat).head? =
          some 0xFF) →
      ∃ (r q1 : Int) (e1 e2 : List Nat) (w1 : World),
        infectus_eraseblock env (fuel + 2) cfg blockno w = some (r, w1) ∧
        w1.usb = w.usb ++
          [UsbEvent.write (erase_pre_frame (blockno * cfg.pages_per_block)) 12,
            UsbEvent.read 128 q1 e1,
            UsbEvent.write erase_post_frame 9,
            UsbEvent.read 128 r e2]) := by
  refine ⟨?_, by simp [erase_pre_frame], ?_, ?_⟩
  · intro r w1 h
    obtain ⟨k, q, rest, c1, hk, u1⟩ := infectus_eraseblock_effect htest h
    rw [erase_pre_frame_eq] at c1 u1
    have hpost : command_frame [NAND_ERASE_POST] = erase_post_frame := by
      simp [command_frame, erase_post_frame, INFECTUS_NAND_CMD, NAND_ERASE_POST]
    rw [hpost] at c1
    exact ⟨k, q, rest, c1, hk, u1⟩
  · intro hr
    simp only [erase_pre_frame, List.getD_eq_getElem?_getD, List.getElem?_cons_succ,
      List.getElem?_cons_zero, Option.getD_some]
    omega
  · intro hcs hwr hstrobe
    exact infectus_eraseblock_ok fuel cfg blockno w htest hcs hwr hstrobe

set_option maxRecDepth 100000 in
/-- Witness for C12: block 5 of the default geometry on a device that answers
every read with the sync byte. -/
theorem infectus_eraseblock_frames_witness :
    (∃ (r : Int) (w1 : World),
      infectus_eraseblock (env_const [0xFF]) 2 Config.initial 5 World.empty = some (r, w1) ∧
      ∃ (k : Nat) (q : Int) (rest : List UsbEvent),
        w1.calls = World.empty.calls ++
          [Call.eraseblock 5,
            Call.sendcommand (erase_pre_frame (5 * Config.initial.pages_per_block)),
            Call.sendcommand erase_post_frame] ++
          (List.replicate k status_poll).flatten ∧
        (Config.initial.check_status = false → k = 0) ∧
        w1.usb = World.empty.usb ++
          UsbEvent.write (erase_pre_frame (5 * Config.initial.pages_per_block)) q :: rest) ∧
    (erase_pre_frame (5 * Config.initial.pages_per_block)).getD 9 0 +
        256 * (erase_pre_frame (5 * Config.initial.pages_per_block)).getD 10 0 +
        65536 * (erase_pre_frame (5 * Config.initial.pages_per_block)).getD 11 0 =
      5 * Config.initial.pages_per_block ∧
    ∃ (r q1 : Int) (e1 e2 : List Nat) (w1 : World),
      infectus_eraseblock (env_const [0xFF]) (0 + 2) Config.initial 5 World.empty =
        some (r, w1) ∧
      w1.usb = World.empty.usb ++
        [UsbEvent.write (erase_pre_frame (5 * Config.initial.pages_per_block)) 12,
          UsbEvent.read 128 q1 e1,
          UsbEvent.write erase_post_frame 9,
          UsbEvent.read 128 r e2] := by
  have hs : (infectus_eraseblock (env_const [0xFF]) 2 Config.initial 5 World.empty).isSome =
      true := by decide
  obtain ⟨⟨r, w1⟩, h⟩ := Option.isSome_iff_exists.mp hs
  exact ⟨⟨r, w1, h,
      (infectus_eraseblock_frames (env_const [0xFF]) 2 Config.initial 5 World.empty rfl).1
        _ _ h⟩,
    (infectus_eraseblock_frames (env_const [0xFF]) 2 Config.initial 5 World.empty rfl).2.2.1
      (by decide),
    (infectus_eraseblock_frames (env_const [0xFF]) 0 Config.initial 5 World.empty rfl).2.2.2
      rfl (fun _ _ => rfl) (fun _ => ⟨(by decide : (0 : Int) ≤ 1), rfl⟩)⟩

theorem overwrite_length (dst src : List Nat) (h : src.length ≤ dst.length) :
    (overwrite dst src).length = dst.length := by
  simp only [overwrite, List.length_append, List.length_drop]
  omega

theorem overwrite_getElem?_ge (dst src : List Nat) (k : Nat) (h : src.length ≤ k) :
    (overwrite dst src)[k]? = dst[k]? := by
  simp only [overwrite]
  rw [List.getElem?_append_right h, List.getElem?_drop]
  congr 1
  omega

/-- A data transfer changes the caller's buffer only inside the chunk it sent. -/
theorem infectus_nand_send_buffer {env : Env} {fuel : Nat} {buf : List Nat} {len : Nat}
    {w : World} {r : Int} {buf1 : List Nat} {w1 : World} (hlen : len ≤ buf.length)
    (h : infectus_nand_send env fuel buf len w = some (r, buf1, w1)) :
    buf1.length = buf.length ∧ ∀ k, len ≤ k → buf1[k]? = buf[k]? := by
  unfold infectus_nand_send at h
  simp only at h
  split at h
  · simp at h
  · rename_i r0 t0 v0 h0
    split at h
    · simp only [Option.some.injEq, Prod.mk.injEq] at h
      obtain ⟨-, h2, -⟩ := h
      subst h2
      exact ⟨rfl, fun _ _ => rfl⟩
    · rename_i hneg
      simp only [Option.some.injEq, Prod.mk.injEq] at h
      obtain ⟨-, h2, -⟩ := h
      subst h2
      have hm : (if r0 > (len : Int) then (len : Int) - 1 else r0).toNat ≤ len := by
        split <;> omega
      have hs : (t0.take (if r0 > (len : Int) then (len : Int) - 1 else r0).toNat).length ≤
          len := by
        rw [List.length_take]
        omega
      exact ⟨overwrite_length _ _ (by omega),
        fun k hk => overwrite_getElem?_ge _ _ k (by omega)⟩

/-- One round of a page write leaves the page buffer as it was outside the
chunk of the round. -/
theorem round_buffer (dstbuf tail1 : List Nat) (off sub : Nat)
    (hfit : off + sub ≤ dstbuf.length)
    (hl : tail1.length = (dstbuf.drop off).length)
    (hk : ∀ k, sub ≤ k → tail1[k]? = (dstbuf.drop off)[k]?) :
    (dstbuf.take off ++ tail1).length = dstbuf.length ∧
      ∀ k, (k < off ∨ off + sub ≤ k) → (dstbuf.take off ++ tail1)[k]? = dstbuf[k]? := by
  have ht : (dstbuf.take off).length = off := by
    rw [List.length_take]; omega
  refine ⟨?_, ?_⟩
  · rw [List.length_append, ht, hl, List.length_drop]
    omega
  · intro k hk1
    rcases hk1 with h1 | h2
    · rw [List.getElem?_append_left (by omega), List.getElem?_take]
      simp [h1]
    · rw [List.getElem?_append_right (by omega), ht, hk _ (by omega), List.getElem?_drop]
      congr 1
      omega

/-- Two buffers that agree on a chunk have the same chunk. -/
theorem chunk_congr (l1 l2 : List Nat) (a sub : Nat)
    (h : ∀ t, t < sub → l1[a + t]? = l2[a + t]?) :
    (l1.drop a).take sub = (l2.drop a).take sub := by
  apply List.ext_getElem?
  intro t
  rw [List.getElem?_take, List.getElem?_take]
  split
  · rename_i ht
    rw [List.getElem?_drop, List.getElem?_drop]
    exact h t ht
  · rfl

theorem write_pre_frame (cfg : Config) (buf : List Nat) (pageno i : Nat) :
    (infectus_nand_command buf 5 [NAND_WRITE_PRE, i * cfg.subpage_size,
        (i * cfg.subpage_size) >>> 8, pageno, pageno >>> 8, pageno >>> 16]).1.take
      (infectus_nand_command buf 5 [NAND_WRITE_PRE, i * cfg.subpage_size,
        (i * cfg.subpage_size) >>> 8, pageno, pageno >>> 8, pageno >>> 16]).2 =
    [0x4e, 0, 0, 0, 0, 0, 0, 5, 0x80,
      (i * cfg.subpage_size) % 256, (i * cfg.subpage_size) / 256 % 256,
      pageno % 256, pageno / 256 % 256, pageno / 65536 % 256] := by
  rw [nand_command_frame5]
  have h1 : (i * cfg.subpage_size) >>> 8 = (i * cfg.subpage_size) / 256 := by
    rw [Nat.shiftRight_eq_div_pow]
  have h2 : pageno >>> 8 = pageno / 256 := by rw [Nat.shiftRight_eq_div_pow]
  have h3 : pageno >>> 16 = pageno / 65536 := by rw [Nat.shiftRight_eq_div_pow]
  rw [h1, h2, h3]
  simp [command_frame, INFECTUS_NAND_CMD, NAND_WRITE_PRE]

theorem write_post_frame (buf : List Nat) :
    (infectus_nand_command buf 0 [NAND_WRITE_POST]).1.take
      (infectus_nand_command buf 0 [NAND_WRITE_POST]).2 =
    [0x4e, 0, 0, 0, 0, 0, 0, 0, 0x10] := by
  rw [nand_command_frame0]
  simp [command_frame, INFECTUS_NAND_CMD, NAND_WRITE_POST]

/-- The round loop of a page write: every round hands its three commands to
the transport, with the chunk of the page as the caller passed it, whatever
the transfers returned; status queries follow a round only with
`check_status`. -/
theorem writeflashpage_chunks_effect (env : Env) (fuel : Nat) (cfg : Config) (pageno : Nat)
    (page : List Nat) :
    ∀ (idxs : List Nat) (buf dstbuf : List Nat) (w : World) (dst1 : List Nat) (w1 : World),
      idxs.Nodup →
      (∀ i ∈ idxs, (i + 1) * cfg.subpage_size ≤ dstbuf.length) →
      (∀ i ∈ idxs, (dstbuf.drop (i * cfg.subpage_size)).take cfg.subpage_size =
        (page.drop (i * cfg.subpage_size)).take cfg.subpage_size) →
      writeflashpage_chunks env fuel cfg pageno idxs buf dstbuf w = some (dst1, w1) →
      ∃ ks : List Nat, ks.length = idxs.length ∧
        (cfg.check_status = false → ∀ k ∈ ks, k = 0) ∧
        w1.calls = w.calls ++ ((idxs.zip ks).map (fun x =>
          write_round cfg pageno page x.1 ++ (List.replicate x.2 status_poll).flatten)).flatten ∧
        w1.blocks_done = w.blocks_done := by
  intro idxs
  induction idxs with
  | nil =>
    intro buf dstbuf w dst1 w1 _ _ _ h
    simp only [writeflashpage_chunks, Option.some.injEq, Prod.mk.injEq] at h
    obtain ⟨-, h2⟩ := h
    subst h2
    exact ⟨[], rfl, by simp, by simp, rfl⟩
  | cons i rest ih =>
    intro buf dstbuf w dst1 w1 hnd hfit hchunk h
    obtain ⟨hi, hnd1⟩ := List.nodup_cons.mp hnd
    have hfi := hfit i (List.mem_cons_self _ _)
    have hci := hchunk i (List.mem_cons_self _ _)
    have e0 : (i + 1) * cfg.subpage_size = i * cfg.subpage_size + cfg.subpage_size := by ring
    simp only [writeflashpage_chunks] at h
    split at h
    · simp at h
    · rename_i r1 b1 v1 h1
      split at h
      · simp at h
      · rename_i r2 tail1 v2 h2
        split at h
        · simp at h
        · rename_i r3 b3 v3 h3
          split at h
          · simp at h
          · rename_i v4 h4
            have hdl : cfg.subpage_size ≤ (dstbuf.drop (i * cfg.subpage_size)).length := by
              rw [List.length_drop]; omega
            obtain ⟨-, -, -, -, -, c1, d1⟩ := infectus_sendcommand_effect h1
            obtain ⟨c2, d2, -⟩ := infectus_nand_send_effect hdl h2
            obtain ⟨tl, tk⟩ := infectus_nand_send_buffer hdl h2
            obtain ⟨-, -, -, -, -, c3, d3⟩ := infectus_sendcommand_effect h3
            obtain ⟨k, hk0, -, c4, d4⟩ := status_wait_effect h4
            rw [write_pre_frame] at c1
            rw [write_post_frame] at c3
            rw [hci] at c2
            obtain ⟨bl, bk⟩ := round_buffer dstbuf tail1 (i * cfg.subpage_size) cfg.subpage_size
              (by omega) tl tk
            obtain ⟨ks, k1, k2, k3, k4⟩ := ih b3 _ v4 dst1 w1 hnd1
              (fun j hj => by rw [bl]; exact hfit j (List.mem_cons_of_mem _ hj))
              (fun j hj => by
                rw [← hchunk j (List.mem_cons_of_mem _ hj)]
                apply chunk_congr
                intro t ht
                apply bk
                have hji : j ≠ i := fun hje => hi (hje ▸ hj)
                have e1 : (j + 1) * cfg.subpage_size =
                    j * cfg.subpage_size + cfg.subpage_size := by ring
                rcases Nat.lt_or_gt_of_ne hji with hlt | hgt
                · have := Nat.mul_le_mul_right cfg.subpage_size (show j + 1 ≤ i by omega)
                  left; omega
                · have := Nat.mul_le_mul_right cfg.subpage_size (show i + 1 ≤ j by omega)
                  right; omega)
              h
            refine ⟨k :: ks, by simp [k1], ?_, ?_, by rw [k4, d4, d3, d2, d1]⟩
            · intro hcs x hx
              rcases List.mem_cons.mp hx with hx | hx
              · rw [hx]; exact hk0 hcs
              · exact k2 hcs x hx
            · rw [k3, c4, c3, c2, c1]
              simp [write_round, send_frame]

/-- The chunks of a list whose length is a whole number of chunks, put one
after the other, are the list. -/
theorem chunks_flatten (sub : Nat) : ∀ (c : Nat) (l : List Nat), l.length = c * sub →
    ((List.range c).map (fun i => (l.drop (i * sub)).take sub)).flatten = l := by
  intro c
  induction c with
  | zero =>
    intro l hl
    have : l = [] := List.length_eq_zero.mp (by simpa using hl)
    subst this
    rfl
  | succ c ih =>
    intro l hl
    rw [List.range_succ_eq_map, List.map_cons, List.map_map, List.flatten_cons]
    have hrest : List.map ((fun i => (l.drop (i * sub)).take sub) ∘ Nat.succ) (List.range c) =
        List.map (fun i => ((l.drop sub).drop (i * sub)).take sub) (List.range c) := by
      apply List.map_congr_left
      intro i _
      simp only [Function.comp, List.drop_drop]
      congr 2
      rw [Nat.succ_mul]
      omega
    rw [hrest, ih (l.drop sub) (by rw [List.length_drop, hl, Nat.succ_mul]; omega)]
    simp

/-- With a chunk size that divides the page length there are exactly
`(page_size + spare_size) / subpage_size` rounds. -/
theorem page_chunks_of_dvd (cfg : Config) (hpos : 0 < cfg.subpage_size)
    (hdvd : cfg.subpage_size ∣ cfg.page_size + cfg.spare_size) :
    page_chunks cfg = some ((cfg.page_size + cfg.spare_size) / cfg.subpage_size) := by
  obtain ⟨c, hc⟩ := hdvd
  unfold page_chunks
  rw [if_neg (by omega), hc]
  congr 1
  rw [Nat.mul_div_cancel_left c hpos]
  have : cfg.subpage_size * c + cfg.subpage_size - 1 =
      cfg.subpage_size * c + (cfg.subpage_size - 1) := by omega
  rw [this, Nat.mul_add_div hpos, Nat.div_eq_of_lt (by omega)]
  rfl

/-- C13: with test mode off, a chunk size that is a positive divisor of
`page_size + spare_size`, a page buffer that holds a page and a data frame that
fits its buffer: whenever `infectus_writeflashpage` returns, it returns 0 and
has handed to the transport exactly `(page_size + spare_size) / subpage_size`
rounds; round `i` is the pre-strobe `0x80` with the column offset
`i * subpage_size` (low byte, high byte) and the three bytes of the row
address, the data frame whose payload is the bytes
`[i * subpage_size, (i + 1) * subpage_size)` of the page as the caller passed
it, and the commit strobe `0x10`, followed by status queries only with
`check_status`, whatever the device replied. The payloads, in order, make up
the page. -/
theorem infectus_writeflashpage_rounds (env : Env) (fuel : Nat) (cfg : Config)
    (dstbuf : List Nat) (pageno : Nat) (w : World) (r : Int) (dst1 : List Nat) (w1 : World)
    (htest : cfg.test_mode = false) (hpos : 0 < cfg.subpage_size)
    (hdvd : cfg.subpage_size ∣ cfg.page_size + cfg.spare_size)
    (hbuf : cfg.page_size + cfg.spare_size ≤ dstbuf.length)
    (hfit : cfg.subpage_size + 8 ≤ PAGEBUF_SIZE)
    (h : infectus_writeflashpage env fuel cfg dstbuf pageno w = some (r, dst1, w1)) :
    ∃ ks : List Nat, r = 0 ∧
      ks.length = (cfg.page_size + cfg.spare_size) / cfg.subpage_size ∧
      (cfg.check_status = false → ∀ k ∈ ks, k = 0) ∧
      w1.calls = w.calls ++
        Call.writeflashpage pageno (dstbuf.take (cfg.page_size + cfg.spare_size)) ::
        (((List.range ((cfg.page_size + cfg.spare_size) / cfg.subpage_size)).zip ks).map
          (fun x => write_round cfg pageno (dstbuf.take (cfg.page_size + cfg.spare_size)) x.1 ++
            (List.replicate x.2 status_poll).flatten)).flatten ∧
      ((List.range ((cfg.page_size + cfg.spare_size) / cfg.subpage_size)).map
        (fun i => ((dstbuf.take (cfg.page_size + cfg.spare_size)).drop
          (i * cfg.subpage_size)).take cfg.subpage_size)).flatten =
        dstbuf.take (cfg.page_size + cfg.spare_size) := by
  have _ := hfit
  have hn : (cfg.page_size + cfg.spare_size) / cfg.subpage_size * cfg.subpage_size =
      cfg.page_size + cfg.spare_size := Nat.div_mul_cancel hdvd
  unfold infectus_writeflashpage at h
  simp only [htest, Bool.false_eq_true, if_false] at h
  rw [page_chunks_of_dvd cfg hpos hdvd] at h
  simp only at h
  split at h
  · simp at h
  · rename_i d1 v1 h1
    simp only [Option.some.injEq, Prod.mk.injEq] at h
    obtain ⟨hr, -, hw⟩ := h
    subst hw
    obtain ⟨ks, k1, k2, k3, -⟩ := writeflashpage_chunks_effect env fuel cfg pageno
      (dstbuf.take (cfg.page_size + cfg.spare_size)) _ _ _ _ _ _ (List.nodup_range _)
      (fun i hi => by
        have hi1 := List.mem_range.mp hi
        have := Nat.mul_le_mul_right cfg.subpage_size (show i + 1 ≤ _ from hi1)
        omega)
      (fun i hi => by
        have hi1 := List.mem_range.mp hi
        have h2 := Nat.mul_le_mul_right cfg.subpage_size (show i + 1 ≤ _ from hi1)
        have e1 : (i + 1) * cfg.subpage_size = i * cfg.subpage_size + cfg.subpage_size := by
          ring
        apply chunk_congr
        intro t ht
        rw [List.getElem?_take, if_pos (by omega)])
      h1
    refine ⟨ks, hr.symm, by simpa using k1, k2, ?_, ?_⟩
    · rw [k3]; simp [World.log]
    · exact chunks_flatten cfg.subpage_size _ _ (by
        rw [List.length_take, hn]; omega)

set_option maxRecDepth 100000 in
/-- Witness for C13: the page `1 2 3 4` written in two chunks of 2 bytes on a
device that answers every read with three bytes. -/
theorem infectus_writeflashpage_rounds_witness :
    ∃ (r : Int) (dst1 : List Nat) (w1 : World),
      infectus_writeflashpage (env_const [0xFF, 0xAA, 0xBB]) 2 cfg_tiny_halves
        [1, 2, 3, 4, 0, 0, 0, 0] 7 World.empty = some (r, dst1, w1) ∧
      ∃ ks : List Nat, r = 0 ∧
        ks.length = (cfg_tiny_halves.page_size + cfg_tiny_halves.spare_size) /
          cfg_tiny_halves.subpage_size ∧
        (cfg_tiny_halves.check_status = false → ∀ k ∈ ks, k = 0) ∧
        w1.calls = World.empty.calls ++
          Call.writeflashpage 7 ([1, 2, 3, 4, 0, 0, 0, 0].take
            (cfg_tiny_halves.page_size + cfg_tiny_halves.spare_size)) ::
          (((List.range ((cfg_tiny_halves.page_size + cfg_tiny_halves.spare_size) /
              cfg_tiny_halves.subpage_size)).zip ks).map
            (fun x => write_round cfg_tiny_halves 7 ([1, 2, 3, 4, 0, 0, 0, 0].take
                (cfg_tiny_halves.page_size + cfg_tiny_halves.spare_size)) x.1 ++
              (List.replicate x.2 status_poll).flatten)).flatten ∧
        ((List.range ((cfg_tiny_halves.page_size + cfg_tiny_halves.spare_size) /
            cfg_tiny_halves.subpage_size)).map
          (fun i => (([1, 2, 3, 4, 0, 0, 0, 0].take
            (cfg_tiny_halves.page_size + cfg_tiny_halves.spare_size)).drop
            (i * cfg_tiny_halves.subpage_size)).take cfg_tiny_halves.subpage_size)).flatten =
          [1, 2, 3, 4, 0, 0, 0, 0].take
            (cfg_tiny_halves.page_size + cfg_tiny_halves.spare_size) := by
  have hs : (infectus_writeflashpage (env_const [0xFF, 0xAA, 0xBB]) 2 cfg_tiny_halves
      [1, 2, 3, 4, 0, 0, 0, 0] 7 World.empty).isSome = true := by decide
  obtain ⟨⟨r, dst1, w1⟩, h⟩ := Option.isSome_iff_exists.mp hs
  exact ⟨r, dst1, w1, h,
    infectus_writeflashpage_rounds _ _ _ _ _ _ _ _ _ rfl (by decide) (by decide) (by decide)
      (by decide) h⟩

end Amoxiflash
